import Mathlib

/-!
# knet: the client pool, the session engine, the client engine and the accept loop

A shallow embedding of `client_pool.go`, `io_session.go`, `client_base.go`, `conn.go` and
`server_base.go` of `stn81/knet`.

Go values are modelled as follows.

* `int` fields are `Int`; the 32-bit atomic counters are `Nat` reduced modulo `2^32`.
* A buffered channel is a record of its buffer, its capacity and its closed bit.
  A receive is ready when the buffer is non-empty or the channel is closed (it then
  yields the zero value); a send is ready when the buffer has room, and on a closed
  channel it proceeds by panicking.
* A `select` is resolved by listing its ready cases in source order and letting a
  caller-supplied number `pick` choose among them, so that a statement quantified
  over `pick` covers every resolution.
* Results of the user-supplied collaborators (the client factory, the codec, the
  handler hooks) are arguments of the operation that consults them.
* A run-time panic is an explicit outcome.
-/

namespace Knet

/-! ## Shared vocabulary -/

/-- The error values of the package, together with errors produced by collaborators. -/
inductive Err
  | ErrClientPoolClosed
  | ErrClientClosed
  | ErrClientDisconnected
  | ErrSessionClosed
  | ErrPeerDead
  | ErrTimeout
  | ErrServerClosed
  | ctxErr
  | EOF
  | netTimeout
  | recovered
  | other (code : Nat)
  deriving DecidableEq, Repr

/-- Run-time panics the modelled code can raise. -/
inductive Panic
  | makechanSizeOutOfRange
  | sendOnClosedChannel
  | closeOfClosedChannel
  | nilDereference
  | factoryNotDefined
  | dialNotDefined
  | negativeWaitGroup
  deriving DecidableEq, Repr

/-- Outcome of running a piece of code on a state `σ`: it returns a value, parks on a
channel operation, or panics. -/
inductive Res (σ α : Type)
  | ret (a : α) (s : σ)
  | blocked (s : σ)
  | panic (e : Panic)
  deriving DecidableEq, Repr

/-- A buffered Go channel. -/
structure Chan (α : Type) where
  buf : List α
  cap : Nat
  closed : Bool
  deriving DecidableEq, Repr

/-- A receive can proceed: a value is buffered, or the channel is closed. -/
def Chan.canRecv {α : Type} (c : Chan α) : Bool :=
  !c.buf.isEmpty || c.closed

/-- The value a ready receive yields (the zero value on a closed, drained channel) and the
channel afterwards. -/
def Chan.recv {α : Type} (c : Chan α) (zero : α) : α × Chan α :=
  match c.buf with
  | x :: rest => (x, { c with buf := rest })
  | [] => (zero, c)

/-- A send can proceed: the buffer has room, or the channel is closed (the send then panics). -/
def Chan.canSend {α : Type} (c : Chan α) : Bool :=
  c.closed || decide (c.buf.length < c.cap)

/-- Resolution of a `select` without `default`: `none` when no case is ready (the goroutine
parks), otherwise the ready case chosen by `pick`. -/
def selectReady {κ : Type} (ready : List κ) (pick : Nat) : Option κ :=
  match ready with
  | [] => none
  | k :: ks => (k :: ks).get? (pick % (k :: ks).length)

/-! ## client_pool.go -/

/-- A value of the `Client` interface as the pool sees it: the nil interface, a client made by
the factory, or the sentinel `errClient`. -/
inductive Client
  | nil
  | real (id : Nat)
  | errClient (err : Err)
  deriving DecidableEq, Repr

structure ClientPoolConfig where
  IdleMin : Int
  IdleMax : Int
  Max : Int
  deriving DecidableEq, Repr

/-- The pool. `factory` records whether a factory was supplied; `ctxDone` is the state of the
pool context; `closeOnce` is the `sync.Once` of `Close`. The last two fields are observations:
how often the factory was asked, and on which clients `Close()` was invoked (in order). -/
structure ClientPool where
  conf : ClientPoolConfig
  factory : Bool
  num : Int
  freeList : Chan Client
  closed : Bool
  ctxDone : Bool
  closeOnce : Bool
  factoryCalls : Nat
  closedClients : List Client
  deriving DecidableEq, Repr

/-- What `Get` hands out: `&errClient(err)` or `&pooledClient(p, c)`. -/
inductive Handle
  | errClient (err : Err)
  | pooledClient (inner : Client)
  deriving DecidableEq, Repr

/-- The mutable `pooledClient` record; `Client` is the embedded inner client. -/
structure pooledClient where
  Client : Client
  deriving DecidableEq, Repr

/-- Normalisation performed at the head of `NewClientPool`. -/
def normalize (conf : ClientPoolConfig) : ClientPoolConfig :=
  let conf1 := if conf.IdleMax < conf.Max then { conf with IdleMax := conf.Max } else conf
  if conf1.IdleMin > conf1.IdleMax then { conf1 with IdleMin := conf1.IdleMax } else conf1

/-- Constructor `NewClientPool`; `make(chan Client, n)` panics for negative `n`. -/
def NewClientPool (factory : Bool) (conf : ClientPoolConfig) : Except Panic ClientPool :=
  let conf2 := normalize conf
  if conf2.IdleMax < 0 then .error .makechanSizeOutOfRange
  else .ok
    { conf := conf2
      factory := factory
      num := 0
      freeList := { buf := [], cap := conf2.IdleMax.toNat, closed := false }
      closed := false
      ctxDone := false
      closeOnce := false
      factoryCalls := 0
      closedClients := [] }

def ClientPool.isClosed (p : ClientPool) : Bool := p.closed

def ClientPool.isMaxReached (p : ClientPool) : Bool := decide (p.num ≥ p.conf.Max)

/-- Method call `c.Close()` on an interface value held by the pool. -/
def Client.Close (c : Client) (p : ClientPool) : Except Panic ClientPool :=
  match c with
  | .nil => .error .nilDereference
  | .errClient _ => .ok p
  | .real id => .ok { p with closedClients := p.closedClients ++ [.real id] }

/-- The loop of `Open` with `n` iterations left, `i` being the loop variable; `mk i` is the
factory result of iteration `i`. -/
def ClientPool.openLoop (mk : Nat → Except Err Client) :
    Nat → Nat → ClientPool → Res ClientPool (Option Err)
  | 0, _, p => .ret none p
  | n + 1, i, p =>
    match mk i with
    | .error e => .ret (some e) { p with factoryCalls := p.factoryCalls + 1 }
    | .ok client =>
      let p1 := { p with factoryCalls := p.factoryCalls + 1, num := p.num + 1 }
      if p1.freeList.closed then .panic .sendOnClosedChannel
      else if p1.freeList.buf.length < p1.freeList.cap then
        ClientPool.openLoop mk n (i + 1)
          { p1 with freeList := { p1.freeList with buf := p1.freeList.buf ++ [client] } }
      else .blocked p1

def ClientPool.Open (p : ClientPool) (mk : Nat → Except Err Client) :
    Res ClientPool (Option Err) :=
  if !p.factory then .panic .factoryNotDefined
  else ClientPool.openLoop mk p.conf.IdleMin.toNat 0 p

/-- The `range` loop of `Close` over the closed free-list: every buffered client is closed. -/
def ClientPool.drain : List Client → ClientPool → Except Panic ClientPool
  | [], p => .ok p
  | c :: rest, p =>
    match c.Close { p with freeList := { p.freeList with buf := rest } } with
    | .error e => .error e
    | .ok p1 => ClientPool.drain rest p1

def ClientPool.Close (p : ClientPool) : Except Panic ClientPool :=
  if p.closeOnce then .ok p
  else
    let p1 := { p with closeOnce := true, closed := true, ctxDone := true }
    if p1.freeList.closed then .error .closeOfClosedChannel
    else
      let p2 := { p1 with freeList := { p1.freeList with closed := true } }
      ClientPool.drain p2.freeList.buf p2

/-- Cases of the blocking `select` in `get`, in source order. -/
inductive GetCase
  | ctxDone
  | recv
  deriving DecidableEq, Repr

def ClientPool.getReady (p : ClientPool) : List GetCase :=
  (if p.ctxDone then [GetCase.ctxDone] else []) ++
  (if p.freeList.canRecv then [GetCase.recv] else [])

/-- The blocking `select` of `get` (reached when the maximum is reached), also the point at
which a parked `get` resumes. -/
def ClientPool.getWait (p : ClientPool) (pick : Nat) : Res ClientPool (Client × Option Err) :=
  match selectReady p.getReady pick with
  | none => .blocked p
  | some .ctxDone => .ret (.nil, some .ErrClientPoolClosed) p
  | some .recv =>
    let r := p.freeList.recv .nil
    .ret (r.1, none) { p with freeList := r.2 }

/-- The part of `get` after the `isClosed` test; `fr` is the factory result, consulted only
when the factory is asked. -/
def ClientPool.getOpen (p : ClientPool) (pick : Nat) (fr : Except Err Client) :
    Res ClientPool (Client × Option Err) :=
  if p.freeList.canRecv then
    let r := p.freeList.recv .nil
    .ret (r.1, none) { p with freeList := r.2 }
  else if p.isMaxReached then p.getWait pick
  else if !p.factory then .panic .nilDereference
  else
    match fr with
    | .error e => .ret (.nil, some e) { p with factoryCalls := p.factoryCalls + 1 }
    | .ok c => .ret (c, none) { p with factoryCalls := p.factoryCalls + 1, num := p.num + 1 }

def ClientPool.get (p : ClientPool) (pick : Nat) (fr : Except Err Client) :
    Res ClientPool (Client × Option Err) :=
  if p.isClosed then .ret (.nil, some .ErrClientPoolClosed) p
  else p.getOpen pick fr

/-- The wrapping done by `Get` on the pair returned by `get`. -/
def wrap (r : Client × Option Err) : Handle :=
  match r.2 with
  | some err => .errClient err
  | none => .pooledClient r.1

def Res.map {σ α β : Type} (f : α → β) : Res σ α → Res σ β
  | .ret a s => .ret (f a) s
  | .blocked s => .blocked s
  | .panic e => .panic e

def ClientPool.Get (p : ClientPool) (pick : Nat) (fr : Except Err Client) :
    Res ClientPool Handle :=
  (p.get pick fr).map wrap

/-- Completion of a `Get` that was parked in the blocking `select`. -/
def ClientPool.GetResume (p : ClientPool) (pick : Nat) : Res ClientPool Handle :=
  (p.getWait pick).map wrap

def ClientPool.put (p : ClientPool) (c : Client) : Except Panic ClientPool :=
  if p.isClosed then c.Close p
  else if p.freeList.closed then .error .sendOnClosedChannel
  else if p.freeList.buf.length < p.freeList.cap then
    .ok { p with freeList := { p.freeList with buf := p.freeList.buf ++ [c] } }
  else c.Close { p with num := p.num - 1 }

def pooledClient.Close (pc : pooledClient) (p : ClientPool) :
    Except Panic (pooledClient × ClientPool) :=
  match pc.Client with
  | .errClient _ => .ok (pc, p)
  | c =>
    match p.put c with
    | .error e => .error e
    | .ok p1 => .ok ({ Client := .errClient .ErrClientClosed }, p1)

def errClient.Dial (err : Err) : Option Err := some err
def errClient.Send (err : Err) : Option Err := some err
def errClient.SendWithTimeout (err : Err) : Option Err := some err
def errClient.Call (err : Err) : Option Nat × Option Err := (none, some err)
def errClient.CallWithTimeout (err : Err) : Option Nat × Option Err := (none, some err)

/-! ### Sequential runs of a pool -/

/-- A pool together with every `pooledClient` handed out so far. -/
structure Sys where
  pool : ClientPool
  handles : List pooledClient
  deriving DecidableEq, Repr

/-- Calls made by users of the pool. `Open mk` carries the factory results of the iterations
of `Open`, `Get pick fr` the resolution of the blocking `select` and the factory result,
`Close i` closes the `i`-th handle handed out. -/
inductive Action
  | Open (mk : Nat → Except Err Client)
  | Get (pick : Nat) (fr : Except Err Client)
  | Close (i : Nat)

def Action.isOpen : Action → Bool
  | .Open _ => true
  | _ => false

/-- The action is a `Get` answered by a factory that succeeds with a proper client, or the
close of a handle. -/
def Action.served : Action → Prop
  | .Open _ => False
  | .Get _ fr => ∃ id, fr = .ok (.real id)
  | .Close _ => True

/-- One call. A parked call leaves the state it reached when it parked. -/
def step (s : Sys) : Action → Except Panic Sys
  | .Open mk =>
    match s.pool.Open mk with
    | .ret _ p => .ok { s with pool := p }
    | .blocked p => .ok { s with pool := p }
    | .panic e => .error e
  | .Get pick fr =>
    match s.pool.Get pick fr with
    | .ret (.errClient _) p => .ok { s with pool := p }
    | .ret (.pooledClient c) p => .ok { pool := p, handles := s.handles ++ [{ Client := c }] }
    | .blocked p => .ok { s with pool := p }
    | .panic e => .error e
  | .Close i =>
    match s.handles.get? i with
    | none => .ok s
    | some pc =>
      match pc.Close s.pool with
      | .error e => .error e
      | .ok r => .ok { pool := r.2, handles := s.handles.set i r.1 }

def run : Sys → List Action → Except Panic Sys
  | s, [] => .ok s
  | s, a :: rest =>
    match step s a with
    | .error e => .error e
    | .ok s1 => run s1 rest

/-- Runs `acts` on the pool built by `NewClientPool`. -/
def boot (factory : Bool) (conf : ClientPoolConfig) (acts : List Action) : Except Panic Sys :=
  match NewClientPool factory conf with
  | .error e => .error e
  | .ok p => run { pool := p, handles := [] } acts

/-- The handle still wraps a client (it has not been closed). -/
def pooledClient.live (pc : pooledClient) : Bool :=
  match pc.Client with
  | .errClient _ => false
  | _ => true

/-- A factory that always succeeds, numbering its clients from `base`. -/
def freshFrom (base : Nat) : Nat → Except Err Client :=
  fun i => .ok (.real (base + i))

/-- The state a piece of code left behind, when it did not panic. -/
def Res.state? {σ α : Type} : Res σ α → Option σ
  | .ret _ s => some s
  | .blocked s => some s
  | .panic _ => none

/-- Bookkeeping invariant of an open pool and its handles: every pooled or wrapped client is a
proper client, the live-count is the number of idle clients plus the number of live handles,
and `n0` bounds the capacity and the live-count from below. -/
def Sys.balanced (n0 : Int) (s : Sys) : Prop :=
  s.pool.closed = false ∧ s.pool.freeList.closed = false ∧ s.pool.factory = true ∧
  (∀ c ∈ s.pool.freeList.buf, ∃ id, c = Client.real id) ∧
  (∀ h ∈ s.handles, h.Client ≠ Client.nil) ∧
  s.pool.num = (s.pool.freeList.buf.length : Int) + (s.handles.countP pooledClient.live : Int) ∧
  n0 ≤ (s.pool.freeList.cap : Int) ∧ n0 ≤ s.pool.num


/-- An open pool in the given state: stored configuration, free-list capacity, live-count,
idle clients, and number of factory calls so far. -/
def openPool (conf : ClientPoolConfig) (cap : Nat) (num : Int) (idle : List Client)
    (calls : Nat) : ClientPool :=
  { conf := conf, factory := true, num := num,
    freeList := { buf := idle, cap := cap, closed := false },
    closed := false, ctxDone := false, closeOnce := false,
    factoryCalls := calls, closedClients := [] }

/-- A pool after `Close`: closed, context cancelled, free-list closed and drained. -/
def shutPool (conf : ClientPoolConfig) (cap : Nat) (num : Int) (calls : Nat)
    (closedClients : List Client) : ClientPool :=
  { conf := conf, factory := true, num := num,
    freeList := { buf := [], cap := cap, closed := true },
    closed := true, ctxDone := true, closeOnce := true,
    factoryCalls := calls, closedClients := closedClients }


/-! ## io_session.go -/

/-- A decoded message: the nil interface, a plain message, or one carrying an `Id()`. -/
inductive Message
  | nil
  | plain (payload : Nat)
  | withId (id : Nat) (payload : Nat)
  deriving DecidableEq, Repr

/-- The session. `ctxDone` is the state of the session context, `wg` the counter of the
`sync.WaitGroup`, `connected` and `closed` the two atomic words. The fields from `handlers`
on are observations: the goroutines of each kind that are running (`closers` counts the
goroutines spawned by `Close` that have not finished), and how often each collaborator was
called. -/
structure IoSession where
  sendQ : Chan Message
  recvQ : Chan Message
  idleCount : Nat
  readMsgCount : Nat
  writeMsgCount : Nat
  ctxDone : Bool
  wg : Nat
  connected : Nat
  closed : Nat
  handlers : Nat
  readers : Nat
  writers : Nat
  closers : Nat
  connCloses : Nat
  addRefs : Nat
  decRefs : Nat
  onConnected : Nat
  onDisconnected : Nat
  onErrors : List Err
  onMessages : List Message
  onIdles : Nat
  queueCloses : Nat
  deriving DecidableEq, Repr

/-- Constructor `NewIoSession`: `parentDone` tells whether the parent context is already
cancelled, the two sizes come from the `IoConfig`. -/
def NewIoSession (parentDone : Bool) (sendQueueSize recvQueueSize : Int) :
    Except Panic IoSession :=
  if sendQueueSize < 0 then .error .makechanSizeOutOfRange
  else if recvQueueSize < 0 then .error .makechanSizeOutOfRange
  else .ok
    { sendQ := { buf := [], cap := sendQueueSize.toNat, closed := false }
      recvQ := { buf := [], cap := recvQueueSize.toNat, closed := false }
      idleCount := 0, readMsgCount := 0, writeMsgCount := 0
      ctxDone := parentDone
      wg := 0, connected := 0, closed := 0
      handlers := 0, readers := 0, writers := 0, closers := 0
      connCloses := 0, addRefs := 0, decRefs := 0
      onConnected := 0, onDisconnected := 0
      onErrors := [], onMessages := [], onIdles := 0, queueCloses := 0 }

def IoSession.IsConnected (s : IoSession) : Bool := s.connected == 1

def IoSession.IsClosed (s : IoSession) : Bool := s.closed == 1

/-- Method `Close`: the compare-and-swap on `closed` decides whether anything happens; the
winner cancels the context, closes the connection and spawns the goroutine that waits for the
tasks. -/
def IoSession.Close (s : IoSession) : IoSession :=
  if s.closed ≠ 0 then s
  else
    { s with closed := 1, connected := 0, ctxDone := true,
             connCloses := s.connCloses + 1, closers := s.closers + 1 }

/-- The goroutine spawned by `Close`: `wg.Wait()`, then both queues are closed,
`OnDisconnected` is invoked and the engine reference released. -/
def IoSession.closeWait (s : IoSession) : Res IoSession Unit :=
  if s.wg ≠ 0 then .blocked s
  else if s.sendQ.closed then .panic .closeOfClosedChannel
  else if s.recvQ.closed then .panic .closeOfClosedChannel
  else .ret ()
    { s with sendQ := { s.sendQ with closed := true },
             recvQ := { s.recvQ with closed := true },
             queueCloses := s.queueCloses + 1,
             onDisconnected := s.onDisconnected + 1,
             decRefs := s.decRefs + 1,
             closers := s.closers - 1 }

/-- Method `Open`; `onConnected` is the result of the handler's `OnConnected`. -/
def IoSession.Open (s : IoSession) (onConnected : Option Err) : IoSession :=
  let s1 :=
    { s with addRefs := s.addRefs + 1, wg := s.wg + 3,
             handlers := s.handlers + 1, readers := s.readers + 1, writers := s.writers + 1,
             connected := 1, onConnected := s.onConnected + 1 }
  match onConnected with
  | some _ => s1.Close
  | none => s1

/-- `wg.Done()`. -/
def IoSession.wgDone (s : IoSession) : Except Panic IoSession :=
  if s.wg = 0 then .error .negativeWaitGroup else .ok { s with wg := s.wg - 1 }

/-- The value of `err` after the `recover` block of an epilogue. -/
def recoverErr (panicked : Bool) (err : Option Err) : Option Err :=
  if panicked then some .recovered else err

/-- Deferred function of `handleLoop`, entered with the loop's `err`. -/
def IoSession.handleLoopEpilogue (s : IoSession) (panicked : Bool) (err : Option Err) :
    Except Panic IoSession :=
  let s1 :=
    match recoverErr panicked err with
    | some e => { s with onErrors := s.onErrors ++ [e] }
    | none => s
  match s1.wgDone with
  | .error e => .error e
  | .ok s2 => .ok { s2 with handlers := s2.handlers - 1 }.Close

/-- Deferred function of `readLoop`. -/
def IoSession.readLoopEpilogue (s : IoSession) (panicked : Bool) (err : Option Err) :
    Except Panic IoSession :=
  let s1 :=
    match recoverErr panicked err with
    | some e => if !s.IsClosed && e ≠ .EOF then { s with onErrors := s.onErrors ++ [e] } else s
    | none => s
  match s1.wgDone with
  | .error e => .error e
  | .ok s2 => .ok { s2 with readers := s2.readers - 1 }.Close

/-- Deferred function of `writeLoop`. -/
def IoSession.writeLoopEpilogue (s : IoSession) (panicked : Bool) (err : Option Err) :
    Except Panic IoSession :=
  let s1 :=
    match recoverErr panicked err with
    | some e => if !s.IsClosed then { s with onErrors := s.onErrors ++ [e] } else s
    | none => s
  match s1.wgDone with
  | .error e => .error e
  | .ok s2 => .ok { s2 with writers := s2.writers - 1 }.Close

/-- Cases of the `select` in `SendWithTimeout`, in source order. -/
inductive SendCase
  | sessionDone
  | callerDone
  | timer
  | send
  deriving DecidableEq, Repr

/-- The ready cases: `callerDone` is the state of the caller's context, `timerFired` whether
the timer of `time.After(timeout)` has fired (there is no timer when `timeout = 0`, and a
negative duration fires at once). -/
def IoSession.sendReady (s : IoSession) (callerDone : Bool) (timeout : Int)
    (timerFired : Bool) : List SendCase :=
  (if s.ctxDone then [SendCase.sessionDone] else []) ++
  (if callerDone then [SendCase.callerDone] else []) ++
  (if timeout ≠ 0 ∧ (timeout < 0 ∨ timerFired = true) then [SendCase.timer] else []) ++
  (if s.sendQ.canSend then [SendCase.send] else [])

def IoSession.SendWithTimeout (s : IoSession) (callerDone : Bool) (m : Message)
    (timeout : Int) (timerFired : Bool) (pick : Nat) : Res IoSession (Option Err) :=
  match selectReady (s.sendReady callerDone timeout timerFired) pick with
  | none => .blocked s
  | some .sessionDone => .ret (some .ErrSessionClosed) s
  | some .callerDone => .ret (some .ctxErr) s
  | some .timer => .ret (some .ErrTimeout) s
  | some .send =>
    if s.sendQ.closed then .panic .sendOnClosedChannel
    else .ret none { s with sendQ := { s.sendQ with buf := s.sendQ.buf ++ [m] } }

def IoSession.Send (s : IoSession) (callerDone : Bool) (m : Message) (pick : Nat) :
    Res IoSession (Option Err) :=
  s.SendWithTimeout callerDone m 0 false pick

/-- How one pass through the body of a task loop ends: the loop goes round again, or the
function returns with the given value of `err`. -/
inductive Loop
  | next
  | exit (err : Option Err)
  deriving DecidableEq, Repr

/-- The error is a `net.Error` whose `Timeout()` is true. -/
def Err.isTimeout : Err → Bool
  | .netTimeout => true
  | _ => false

/-- Cases of the final `select` of the `readLoop` body. -/
inductive PushCase
  | ctxDone
  | push
  deriving DecidableEq, Repr

def IoSession.pushReady (s : IoSession) : List PushCase :=
  (if s.ctxDone then [PushCase.ctxDone] else []) ++
  (if s.recvQ.canSend then [PushCase.push] else [])

/-- One pass through the body of `readLoop`: `decoded` is the pair returned by
`protocol.Decode`, `onIdle` the result of the handler's `OnIdle` (consulted on a timeout). -/
def IoSession.readLoopIter (s : IoSession) (decoded : Message × Option Err)
    (onIdle : Option Err) (pick : Nat) : Res IoSession Loop :=
  if s.ctxDone then .ret (.exit none) s
  else
    match decoded.2 with
    | some err =>
      if err.isTimeout then
        let s1 : IoSession :=
          { s with idleCount := (s.idleCount + 1) % 2 ^ 32, onIdles := s.onIdles + 1 }
        match onIdle with
        | some e => .ret (.exit (some e)) s1
        | none => .ret .next s1
      else .ret (.exit (some err)) s
    | none =>
      let s1 : IoSession :=
        { s with idleCount := 0, readMsgCount := (s.readMsgCount + 1) % 2 ^ 32 }
      match selectReady s1.pushReady pick with
      | none => .blocked s1
      | some .ctxDone => .ret .next s1
      | some .push =>
        if s1.recvQ.closed then .panic .sendOnClosedChannel
        else .ret .next { s1 with recvQ := { s1.recvQ with buf := s1.recvQ.buf ++ [decoded.1] } }

/-- Cases of the `select` of the `handleLoop` body. -/
inductive PullCase
  | ctxDone
  | pull
  deriving DecidableEq, Repr

def IoSession.pullReady (s : IoSession) : List PullCase :=
  (if s.ctxDone then [PullCase.ctxDone] else []) ++
  (if s.recvQ.canRecv then [PullCase.pull] else [])

/-- One pass through the body of `handleLoop`: `onMessage` is the result of the handler's
`OnMessage` for the message pulled. -/
def IoSession.handleLoopIter (s : IoSession) (onMessage : Option Err) (pick : Nat) :
    Res IoSession Loop :=
  match selectReady s.pullReady pick with
  | none => .blocked s
  | some .ctxDone => .ret (.exit none) s
  | some .pull =>
    let r := s.recvQ.recv .nil
    let s1 : IoSession := { s with recvQ := r.2, onMessages := s.onMessages ++ [r.1] }
    match onMessage with
    | some e => .ret (.exit (some e)) s1
    | none => .ret .next s1

/-! ### Runs of a session -/

/-- Events in the life of a session: calls of `Open` and `Close`, the exit of one of the
three tasks (with the state of its `recover` and `err`), and the completion of the goroutine
spawned by `Close`. -/
inductive SAction
  | Open (onConnected : Option Err)
  | Close
  | handlerExit (panicked : Bool) (err : Option Err)
  | readerExit (panicked : Bool) (err : Option Err)
  | writerExit (panicked : Bool) (err : Option Err)
  | closer
  deriving DecidableEq, Repr

/-- One event. The exit of a task that is not running, and the completion of a goroutine
that was not spawned or still waits, leave the state as it is. -/
def sstep (s : IoSession) : SAction → Except Panic IoSession
  | .Open e => .ok (s.Open e)
  | .Close => .ok s.Close
  | .handlerExit pk e => if s.handlers = 0 then .ok s else s.handleLoopEpilogue pk e
  | .readerExit pk e => if s.readers = 0 then .ok s else s.readLoopEpilogue pk e
  | .writerExit pk e => if s.writers = 0 then .ok s else s.writeLoopEpilogue pk e
  | .closer =>
    if s.closers = 0 then .ok s
    else
      match s.closeWait with
      | .ret _ s1 => .ok s1
      | .blocked s1 => .ok s1
      | .panic e => .error e

def srun : IoSession → List SAction → Except Panic IoSession
  | s, [] => .ok s
  | s, a :: rest =>
    match sstep s a with
    | .error e => .error e
    | .ok s1 => srun s1 rest

/-- Invariant of session runs: the barrier counts the running tasks, the goroutine
spawned by `Close` exists or has finished exactly when `closed` is set, and the connection
was closed once for each such goroutine. -/
def IoSession.wellFormed (s : IoSession) : Prop :=
  s.wg = s.handlers + s.readers + s.writers ∧
  (s.closed = 0 → s.closers = 0 ∧ s.queueCloses = 0) ∧
  (s.closed ≠ 0 → s.closers + s.queueCloses = 1) ∧
  s.onDisconnected = s.queueCloses ∧ s.decRefs = s.queueCloses ∧
  (s.queueCloses = 0 → s.sendQ.closed = false ∧ s.recvQ.closed = false) ∧
  s.connCloses = s.closers + s.queueCloses


/-- An opened session with queues of capacity 16: its idle and read counters, the content of
the recv-queue, the messages delivered to `OnMessage` and the number of `OnIdle` calls. -/
def openSession (idle readMsgs : Nat) (recv delivered : List Message) (onIdles : Nat) :
    IoSession :=
  { sendQ := { buf := [], cap := 16, closed := false }
    recvQ := { buf := recv, cap := 16, closed := false }
    idleCount := idle, readMsgCount := readMsgs, writeMsgCount := 0
    ctxDone := false
    wg := 3, connected := 1, closed := 0
    handlers := 1, readers := 1, writers := 1, closers := 0
    connCloses := 0, addRefs := 1, decRefs := 0
    onConnected := 1, onDisconnected := 0
    onErrors := [], onMessages := delivered, onIdles := onIdles, queueCloses := 0 }

/-- A session after `Open`, `Close`, the exit of its three tasks and the completion of the
goroutine spawned by `Close`. -/
def tornDownSession : IoSession :=
  { sendQ := { buf := [], cap := 16, closed := true }
    recvQ := { buf := [], cap := 16, closed := true }
    idleCount := 0, readMsgCount := 0, writeMsgCount := 0
    ctxDone := true
    wg := 0, connected := 0, closed := 1
    handlers := 0, readers := 0, writers := 0, closers := 0
    connCloses := 1, addRefs := 1, decRefs := 1
    onConnected := 1, onDisconnected := 1
    onErrors := [], onMessages := [], onIdles := 0, queueCloses := 1 }


/-! ## client_base.go -/

structure ClientConfig where
  SendQueueSize : Int
  RecvQueueSize : Int
  AutoReconnect : Bool
  deriving DecidableEq, Repr

/-- A `pendingRequest` record: the request and its two channels. -/
structure pendingRequest where
  Request : Message
  errorCh : Chan Err
  replyCh : Chan Message
  deriving DecidableEq, Repr

/-- The record after the send `r.replyCh <- m`. -/
def pendingRequest.reply (r : pendingRequest) (m : Message) : pendingRequest :=
  { r with replyCh := { r.replyCh with buf := r.replyCh.buf ++ [m] } }

/-- The record after the send `r.errorCh <- e`. -/
def pendingRequest.fail (r : pendingRequest) (e : Err) : pendingRequest :=
  { r with errorCh := { r.errorCh with buf := r.errorCh.buf ++ [e] } }

/-- The client engine. `handler` and `dial` record whether a user handler and a dial function
are set, `session` is the current session (`none` for the nil pointer), `ctxDone` the state of
the engine context, `closeOnce` the `sync.Once` of `Close`. The `pendingRequest` records live
in `calls`, a pointer to one being its position there; `pendingMap` is the correlation table
from request id to such a pointer. The last four fields are observations: the calls made to
the user handler. -/
structure ClientBase where
  conf : ClientConfig
  handler : Bool
  dial : Bool
  session : Option IoSession
  sessionError : Option Err
  closed : Bool
  pendingMap : List (Nat × Nat)
  calls : List pendingRequest
  ctxDone : Bool
  closeOnce : Bool
  userConnected : Nat
  userDisconnected : Nat
  userErrors : List Err
  userMessages : List Message
  deriving DecidableEq, Repr

/-- Map lookup `m[id]`. -/
def tableGet : List (Nat × Nat) → Nat → Option Nat
  | [], _ => none
  | (k, v) :: rest, id => if k = id then some v else tableGet rest id

/-- Map deletion `delete(m, id)`. -/
def tableDelete : List (Nat × Nat) → Nat → List (Nat × Nat)
  | [], _ => []
  | (k, v) :: rest, id =>
    if k = id then tableDelete rest id else (k, v) :: tableDelete rest id

/-- Map assignment `m[id] = tk`. -/
def tableSet (m : List (Nat × Nat)) (id tk : Nat) : List (Nat × Nat) :=
  (id, tk) :: tableDelete m id

/-- Constructor `NewClientBase`: `parentDone` tells whether the parent context is already
cancelled. -/
def NewClientBase (parentDone : Bool) (dial : Bool) (conf : ClientConfig) : ClientBase :=
  { conf := conf, handler := false, dial := dial
    session := none, sessionError := none, closed := false
    pendingMap := [], calls := []
    ctxDone := parentDone, closeOnce := false
    userConnected := 0, userDisconnected := 0, userErrors := [], userMessages := [] }

def ClientBase.SetIoHandler (c : ClientBase) (h : Bool) : ClientBase :=
  { c with handler := h }

def ClientBase.GetSession (c : ClientBase) : Option IoSession := c.session

def ClientBase.IsClosed (c : ClientBase) : Bool := c.closed

def ClientBase.IsConnected (c : ClientBase) : Bool :=
  match c.GetSession with
  | none => false
  | some s => s.IsConnected

/-- Hook `OnConnected`: `user` is the result of the user handler's `OnConnected`. -/
def ClientBase.OnConnected (c : ClientBase) (session : IoSession) (user : Option Err) :
    Option Err × ClientBase :=
  let c1 := { c with session := some session, sessionError := none }
  if c1.handler then (user, { c1 with userConnected := c1.userConnected + 1 })
  else (none, c1)

/-- Hook `OnError`. -/
def ClientBase.OnError (c : ClientBase) (err : Err) : ClientBase :=
  let c1 := { c with sessionError := some err }
  if c1.handler then { c1 with userErrors := c1.userErrors ++ [err] } else c1

/-- The loop of `settlePendingRequests` over the entries of the swapped-out table: the error is
sent on the error channel of each record. -/
def settleLoop (err : Err) : List (Nat × Nat) → ClientBase → Res ClientBase Unit
  | [], c => .ret () c
  | e :: rest, c =>
    match c.calls.get? e.2 with
    | none => .panic .nilDereference
    | some r =>
      if r.errorCh.closed then .panic .sendOnClosedChannel
      else if r.errorCh.buf.length < r.errorCh.cap then
        settleLoop err rest { c with calls := c.calls.set e.2 (r.fail err) }
      else .blocked c

def ClientBase.settlePendingRequests (c : ClientBase) : Res ClientBase Unit :=
  let pendingRequests := c.pendingMap
  let err :=
    match c.sessionError with
    | some e => e
    | none => Err.ErrClientClosed
  settleLoop err pendingRequests { c with pendingMap := [] }

/-- Hook `OnDisconnected`. -/
def ClientBase.OnDisconnected (c : ClientBase) : Res ClientBase Unit :=
  if c.IsClosed then .ret () c
  else
    match c.settlePendingRequests with
    | .ret _ c1 =>
      if c1.handler then .ret () { c1 with userDisconnected := c1.userDisconnected + 1 }
      else .ret () c1
    | .blocked c1 => .blocked c1
    | .panic e => .panic e

/-- The tail of `OnMessage`: the message goes to the user handler, whose result is `user`. -/
def ClientBase.forward (c : ClientBase) (msg : Message) (user : Option Err) :
    Res ClientBase (Option Err) :=
  if c.handler then .ret user { c with userMessages := c.userMessages ++ [msg] }
  else .ret none c

/-- Hook `OnMessage`. A message satisfies the `Response` interface exactly when it has an
`Id()` method. -/
def ClientBase.OnMessage (c : ClientBase) (msg : Message) (user : Option Err) :
    Res ClientBase (Option Err) :=
  match msg with
  | .withId id _ =>
    let c1 := { c with pendingMap := tableDelete c.pendingMap id }
    match tableGet c.pendingMap id with
    | some tk =>
      match c1.calls.get? tk with
      | none => .panic .nilDereference
      | some r =>
        if r.replyCh.closed then .panic .sendOnClosedChannel
        else if r.replyCh.buf.length < r.replyCh.cap then
          .ret none { c1 with calls := c1.calls.set tk (r.reply msg) }
        else .blocked c1
    | none => c1.forward msg user
  | _ => c.forward msg user

/-- Method `ensureConnected`: `dialed` is the error of the dial function (`none` when it
returned a connection), `user` the result of the user handler's `OnConnected`. The new
session is opened with the engine as its handler. -/
def ClientBase.ensureConnected (c : ClientBase) (force : Bool) (dialed user : Option Err) :
    Except Panic (Option Err × ClientBase) :=
  if c.IsConnected then .ok (none, c)
  else if !force && !c.conf.AutoReconnect then .ok (some .ErrClientDisconnected, c)
  else if !c.dial then .error .nilDereference
  else
    match dialed with
    | some e => .ok (some e, c)
    | none =>
      match NewIoSession c.ctxDone c.conf.SendQueueSize c.conf.RecvQueueSize with
      | .error p => .error p
      | .ok s =>
        let hooked := if c.handler then user else none
        let r := c.OnConnected (s.Open hooked) user
        .ok (none, r.2)

/-- Method `Dial`. -/
def ClientBase.Dial (c : ClientBase) (dialed user : Option Err) :
    Except Panic (Option Err × ClientBase) :=
  if !c.dial then .error .dialNotDefined
  else c.ensureConnected true dialed user

/-- Method `Close`. Cancelling the engine context cancels the session context derived from
it. -/
def ClientBase.Close (c : ClientBase) : ClientBase :=
  if c.closeOnce then c
  else
    let c1 := { c with closeOnce := true, closed := true }
    match c1.GetSession with
    | none => { c1 with ctxDone := true }
    | some s =>
      let s1 : IoSession := { s.Close with ctxDone := true }
      { c1 with session := some s1, ctxDone := true }

/-- Method `Disconnect`: a method call through the nil session pointer dereferences it. -/
def ClientBase.Disconnect (c : ClientBase) : Except Panic ClientBase :=
  let session := c.GetSession
  let c1 := c.OnError .ErrClientDisconnected
  match session with
  | none => .error .nilDereference
  | some s =>
    let s1 : IoSession := s.Close
    .ok { c1 with session := some s1 }

/-- Registration of a call (the lines of `CallWithTimeout` between `ensureConnected` and the
send): a fresh record with two one-slot channels is stored under the request id. The second
component is the pointer to the record. -/
def ClientBase.register (c : ClientBase) (req : Message) (id : Nat) : ClientBase × Nat :=
  let pendingReq : pendingRequest :=
    { Request := req
      replyCh := { buf := [], cap := 1, closed := false }
      errorCh := { buf := [], cap := 1, closed := false } }
  ({ c with calls := c.calls ++ [pendingReq],
            pendingMap := tableSet c.pendingMap id c.calls.length }, c.calls.length)

/-- Cases of the `select` in which `CallWithTimeout` waits, in source order. -/
inductive CallCase
  | engineDone
  | callerDone
  | reply
  | error
  | timer
  deriving DecidableEq, Repr

/-- The ready cases of the wait: `r` is the caller's record, `wait` the duration the timer was
armed with and `elapsed` the time since it was armed (there is no timer when
`timeout = 0`). -/
def ClientBase.callReady (c : ClientBase) (r : pendingRequest) (callerDone : Bool)
    (timeout wait elapsed : Int) : List CallCase :=
  (if c.ctxDone then [CallCase.engineDone] else []) ++
  (if callerDone then [CallCase.callerDone] else []) ++
  (if r.replyCh.canRecv then [CallCase.reply] else []) ++
  (if r.errorCh.canRecv then [CallCase.error] else []) ++
  (if timeout ≠ 0 ∧ wait ≤ elapsed then [CallCase.timer] else [])

/-- The wait of `CallWithTimeout` for the record at `tk`, registered under `id`. The result is
the pair `(resp, err)`; a receive from a closed channel yields the zero value. -/
def ClientBase.callWait (c : ClientBase) (tk id : Nat) (callerDone : Bool)
    (timeout wait elapsed : Int) (pick : Nat) :
    Res ClientBase (Option Message × Option Err) :=
  match c.calls.get? tk with
  | none => .panic .nilDereference
  | some r =>
    match selectReady (c.callReady r callerDone timeout wait elapsed) pick with
    | none => .blocked c
    | some .engineDone => .ret (none, some .ErrClientClosed) c
    | some .callerDone => .ret (none, some .ctxErr) c
    | some .reply =>
      match r.replyCh.buf with
      | m :: rest =>
        let r1 : pendingRequest := { r with replyCh := { r.replyCh with buf := rest } }
        .ret (some m, none) { c with calls := c.calls.set tk r1 }
      | [] => .ret (none, none) c
    | some .error =>
      match r.errorCh.buf with
      | e :: rest =>
        let r1 : pendingRequest := { r with errorCh := { r.errorCh with buf := rest } }
        .ret (none, some e) { c with calls := c.calls.set tk r1 }
      | [] => .ret (none, none) c
    | some .timer =>
      .ret (none, some .ErrTimeout) { c with pendingMap := tableDelete c.pendingMap id }

/-- What `CallWithTimeout` gets from its surroundings: the state of the caller's context
during the send and during the wait, the dial error and the user's `OnConnected` result (used
when a connection has to be made), the resolution of the `select` of the send and whether its
timer fired, the clock readings `tBegin` (before the send), `tSent` (at `time.Since`) and
`now` (when the wait is resolved), and the resolution of the wait. -/
structure CallEnv where
  sendCallerDone : Bool
  waitCallerDone : Bool
  dialed : Option Err
  user : Option Err
  sendTimerFired : Bool
  sendPick : Nat
  tBegin : Int
  tSent : Int
  now : Int
  pick : Nat
  deriving DecidableEq, Repr

/-- Method `CallWithTimeout` for the request with id `id` and payload `payload`. The timer of
the wait is armed with `wait := time.Since(tBegin)`. -/
def ClientBase.CallWithTimeout (c : ClientBase) (id payload : Nat) (timeout : Int)
    (env : CallEnv) : Res ClientBase (Option Message × Option Err) :=
  if c.IsClosed then .ret (none, some .ErrClientClosed) c
  else
    match c.ensureConnected false env.dialed env.user with
    | .error p => .panic p
    | .ok (some e, c1) => .ret (none, some e) c1
    | .ok (none, c1) =>
      let reg := c1.register (.withId id payload) id
      let c2 := reg.1
      match c2.GetSession with
      | none => .panic .nilDereference
      | some s =>
        match s.SendWithTimeout env.sendCallerDone (.withId id payload) timeout
            env.sendTimerFired env.sendPick with
        | .panic p => .panic p
        | .blocked s1 => .blocked { c2 with session := some s1 }
        | .ret (some e) s1 => .ret (none, some e) { c2 with session := some s1 }
        | .ret none s1 =>
          let c3 := { c2 with session := some s1 }
          let wait := env.tSent - env.tBegin
          c3.callWait reg.2 id env.waitCallerDone timeout wait (env.now - env.tSent) env.pick

def ClientBase.Call (c : ClientBase) (id payload : Nat) (env : CallEnv) :
    Res ClientBase (Option Message × Option Err) :=
  c.CallWithTimeout id payload 0 env

/-- Method `SendWithTimeout` of the engine. -/
def ClientBase.SendWithTimeout (c : ClientBase) (msg : Message) (timeout : Int)
    (env : CallEnv) : Res ClientBase (Option Err) :=
  if c.IsClosed then .ret (some .ErrClientClosed) c
  else
    match c.ensureConnected false env.dialed env.user with
    | .error p => .panic p
    | .ok (some e, c1) => .ret (some e) c1
    | .ok (none, c1) =>
      match c1.GetSession with
      | none => .panic .nilDereference
      | some s =>
        match s.SendWithTimeout env.sendCallerDone msg timeout env.sendTimerFired
            env.sendPick with
        | .panic p => .panic p
        | .blocked s1 => .blocked { c1 with session := some s1 }
        | .ret e s1 => .ret e { c1 with session := some s1 }

/-! ## conn.go -/

/-- The framed connection. `readDeadline` and `writeDeadline` are the deadlines installed on
the underlying stream (`none` when it carries none); the byte counters are 32-bit. -/
structure Conn where
  readTimeout : Int
  writeTimeout : Int
  bytesIn : Nat
  bytesOut : Nat
  readDeadline : Option Int
  writeDeadline : Option Int
  deriving DecidableEq, Repr

def Conn.SetTimeout (c : Conn) (d : Int) : Conn :=
  { c with readTimeout := d, writeTimeout := d }

/-- Method `SetReadTimeout`: `fail` is the error of the underlying `SetReadDeadline`, which
then leaves the deadline as it was. -/
def Conn.SetReadTimeout (c : Conn) (d : Int) (fail : Option Err) : Option Err × Conn :=
  let c1 := { c with readTimeout := d }
  if d = 0 then
    match fail with
    | some e => (some e, c1)
    | none => (none, { c1 with readDeadline := none })
  else (none, c1)

def Conn.SetWriteTimeout (c : Conn) (d : Int) (fail : Option Err) : Option Err × Conn :=
  let c1 := { c with writeTimeout := d }
  if d = 0 then
    match fail with
    | some e => (some e, c1)
    | none => (none, { c1 with writeDeadline := none })
  else (none, c1)

/-- Method `Read` at time `now`: `fail` is the error of the underlying `SetReadDeadline`, `n`
and `err` the result of the underlying `Read`. -/
def Conn.Read (c : Conn) (now : Int) (fail : Option Err) (n : Nat) (err : Option Err) :
    (Nat × Option Err) × Conn :=
  let counted (c1 : Conn) : (Nat × Option Err) × Conn :=
    ((n, err), { c1 with bytesIn := (c1.bytesIn + n % 2 ^ 32) % 2 ^ 32 })
  if c.readTimeout > 0 then
    match fail with
    | some e => ((0, some e), c)
    | none => counted { c with readDeadline := some (now + c.readTimeout) }
  else counted c

def Conn.Write (c : Conn) (now : Int) (fail : Option Err) (n : Nat) (err : Option Err) :
    (Nat × Option Err) × Conn :=
  let counted (c1 : Conn) : (Nat × Option Err) × Conn :=
    ((n, err), { c1 with bytesOut := (c1.bytesOut + n % 2 ^ 32) % 2 ^ 32 })
  if c.writeTimeout > 0 then
    match fail with
    | some e => ((0, some e), c)
    | none => counted { c with writeDeadline := some (now + c.writeTimeout) }
  else counted c

/-! ## server_base.go -/

/-- One millisecond and one second as `time.Duration` values (nanoseconds). -/
def Millisecond : Int := 1000000

def Second : Int := 1000 * Millisecond

/-- Arithmetic of `time.Duration`, a signed 64-bit integer. -/
def wrapInt64 (x : Int) : Int := (x + 2 ^ 63) % 2 ^ 64 - 2 ^ 63

/-- What `l.Accept()` returns: a connection, a temporary network error, or another error. -/
inductive AcceptResult
  | conn
  | temporary (err : Err)
  | permanent (err : Err)
  deriving DecidableEq, Repr

/-- State of the loop of `Serve`: the local `tempDelay`, the engine context and the engine's
wait group, and as observations the sleeps taken (in order) and the number of sessions handed
to `go srv.serve`. -/
structure ServeState where
  tempDelay : Int
  ctxDone : Bool
  wg : Nat
  sleeps : List Int
  sessions : Nat
  deriving DecidableEq, Repr

/-- The delay computed after a temporary error. -/
def nextDelay (tempDelay : Int) : Int :=
  let d := if tempDelay = 0 then 5 * Millisecond else wrapInt64 (tempDelay * 2)
  if d > 1 * Second then 1 * Second else d

/-- One pass through the loop of `Serve` for the given result of `Accept`. -/
def serveIter (st : ServeState) : AcceptResult → Loop × ServeState
  | .conn => (.next, { st with tempDelay := 0, wg := st.wg + 1, sessions := st.sessions + 1 })
  | .temporary _ =>
    if st.ctxDone then (.exit (some .ErrServerClosed), st)
    else
      let d := nextDelay st.tempDelay
      (.next, { st with tempDelay := d, sleeps := st.sleeps ++ [d] })
  | .permanent e =>
    if st.ctxDone then (.exit (some .ErrServerClosed), st)
    else (.exit (some e), st)

/-- Method `Serve` run against the successive results of `Accept`; `.next` means the loop is
back in `Accept` when the results run out. -/
def Serve : ServeState → List AcceptResult → Loop × ServeState
  | st, [] => (.next, st)
  | st, r :: rest =>
    match serveIter st r with
    | (.next, st1) => Serve st1 rest
    | (.exit e, st1) => (.exit e, st1)

/-- State of `Serve` on entry. -/
def serveStart (ctxDone : Bool) : ServeState :=
  { tempDelay := 0, ctxDone := ctxDone, wg := 0, sleeps := [], sessions := 0 }

/-- The closed form of the back-off: the sleep after the `n`-th consecutive temporary
error. -/
def backoff (n : Nat) : Int := min (5 * Millisecond * 2 ^ (n - 1)) (1 * Second)


/-- A record as `CallWithTimeout` creates it for the request `id`. -/
def freshCall (id : Nat) : pendingRequest :=
  { Request := .withId id 0
    errorCh := { buf := [], cap := 1, closed := false }
    replyCh := { buf := [], cap := 1, closed := false } }

/-- An open engine without user handler, with queue sizes 16 and no auto-reconnect, in the
given state: current session, captured session error, correlation table and records. -/
def engine (session : Option IoSession) (sessionError : Option Err)
    (pendingMap : List (Nat × Nat)) (calls : List pendingRequest) : ClientBase :=
  { conf := { SendQueueSize := 16, RecvQueueSize := 16, AutoReconnect := false }
    handler := false, dial := true
    session := session, sessionError := sessionError, closed := false
    pendingMap := pendingMap, calls := calls
    ctxDone := false, closeOnce := false
    userConnected := 0, userDisconnected := 0, userErrors := [], userMessages := [] }

/-- The engine `engine session none pendingMap calls` after its context was cancelled from
outside (the parent context), without `Close`. -/
def cancelledEngine (session : Option IoSession) (pendingMap : List (Nat × Nat))
    (calls : List pendingRequest) : ClientBase :=
  { engine session none pendingMap calls with ctxDone := true }

/-- An opened session (queues of capacity 16) whose send-queue holds `sent`. -/
def sendingSession (sent : List Message) : IoSession :=
  { openSession 0 0 [] [] 0 with sendQ := { buf := sent, cap := 16, closed := false } }

/-- Well-formedness of the correlation table: distinct entries point to distinct records, and
every record in the table exists and has both channels empty, as created. -/
def ClientBase.tableOk (c : ClientBase) : Prop :=
  (c.pendingMap.map Prod.snd).Nodup ∧
  ∀ e ∈ c.pendingMap, ∃ r, c.calls.get? e.2 = some r ∧
    r.errorCh = { buf := [], cap := 1, closed := false } ∧
    r.replyCh = { buf := [], cap := 1, closed := false }

/-! # Verified properties

## The pool -/

theorem normalize_Max (conf : ClientPoolConfig) : (normalize conf).Max = conf.Max := by
  simp only [normalize]
  split_ifs <;> rfl

theorem normalize_IdleMax (conf : ClientPoolConfig) :
    (normalize conf).IdleMax = max conf.IdleMax conf.Max := by
  simp only [normalize]
  split_ifs with h1 h2 h2
  · exact (max_eq_right (le_of_lt h1)).symm
  · exact (max_eq_right (le_of_lt h1)).symm
  · exact (max_eq_left (not_lt.mp h1)).symm
  · exact (max_eq_left (not_lt.mp h1)).symm

theorem normalize_IdleMin (conf : ClientPoolConfig) :
    (normalize conf).IdleMin = min conf.IdleMin (max conf.IdleMax conf.Max) := by
  simp only [normalize]
  split_ifs with h1 h2 h2
  · rw [max_eq_right (le_of_lt h1)]; exact (min_eq_right (le_of_lt h2)).symm
  · rw [max_eq_right (le_of_lt h1)]; exact (min_eq_left (not_lt.mp h2)).symm
  · rw [max_eq_left (not_lt.mp h1)]; exact (min_eq_right (le_of_lt h2)).symm
  · rw [max_eq_left (not_lt.mp h1)]; exact (min_eq_left (not_lt.mp h2)).symm

/-- C1 (as stated) fails: for `IdleMin = 0, IdleMax = 5, Max = 2` the pool is built and stores
`IdleMax = 5`, which exceeds `Max = 2`. -/
theorem NewClientPool_chain_fails :
    ¬ (∀ (conf : ClientPoolConfig) (p : ClientPool), NewClientPool true conf = .ok p →
        p.conf.IdleMin ≤ p.conf.IdleMax ∧ p.conf.IdleMax ≤ p.conf.Max ∧
        (p.freeList.cap : Int) = p.conf.IdleMax) := by
  intro h
  have h1 := h ⟨0, 5, 2⟩ _ rfl
  exact absurd h1.2.1 (by decide)

/-- What `NewClientPool` returns when the larger of `IdleMax` and `Max` is non-negative. -/
theorem NewClientPool_ok (factory : Bool) (conf : ClientPoolConfig)
    (h : 0 ≤ max conf.IdleMax conf.Max) :
    ∃ p, NewClientPool factory conf = .ok p ∧
      p.conf.IdleMax = max conf.IdleMax conf.Max ∧
      p.conf.IdleMin = min conf.IdleMin (max conf.IdleMax conf.Max) ∧
      p.conf.Max = conf.Max ∧
      p.conf.IdleMin ≤ p.conf.IdleMax ∧ p.conf.Max ≤ p.conf.IdleMax ∧
      (p.freeList.cap : Int) = p.conf.IdleMax ∧
      p.freeList.buf = [] ∧ p.freeList.closed = false ∧ p.num = 0 := by
  have hI := normalize_IdleMax conf
  have hm := normalize_IdleMin conf
  have hM := normalize_Max conf
  have hnn : ¬ (normalize conf).IdleMax < 0 := by rw [hI]; omega
  have hnew : NewClientPool factory conf = .ok
      { conf := normalize conf, factory := factory, num := 0,
        freeList := { buf := [], cap := (normalize conf).IdleMax.toNat, closed := false },
        closed := false, ctxDone := false, closeOnce := false, factoryCalls := 0,
        closedClients := [] } := by
    simp only [NewClientPool, if_neg hnn]
  refine ⟨_, hnew, hI, hm, hM, ?_, ?_, ?_, rfl, rfl, rfl⟩
  · show (normalize conf).IdleMin ≤ (normalize conf).IdleMax
    rw [hI, hm]; exact min_le_right _ _
  · show (normalize conf).Max ≤ (normalize conf).IdleMax
    rw [hI, hM]; exact le_max_right _ _
  · show (((normalize conf).IdleMax.toNat : Nat) : Int) = (normalize conf).IdleMax
    exact Int.toNat_of_nonneg (not_lt.mp hnn)

/-- C1 (amended): whenever the larger of `IdleMax` and `Max` is non-negative, `NewClientPool`
returns a pool whose stored configuration has `IdleMax = max IdleMax Max` and
`IdleMin = min IdleMin (stored IdleMax)` and `Max` unchanged, hence
`IdleMin ≤ IdleMax` and `Max ≤ IdleMax`; the free-list is empty, open, and its capacity is the
stored `IdleMax`. -/
theorem NewClientPool_conf (factory : Bool) (conf : ClientPoolConfig)
    (h : 0 ≤ max conf.IdleMax conf.Max) :
    ∃ p, NewClientPool factory conf = .ok p ∧
      p.conf.IdleMax = max conf.IdleMax conf.Max ∧
      p.conf.IdleMin = min conf.IdleMin (max conf.IdleMax conf.Max) ∧
      p.conf.Max = conf.Max ∧
      p.conf.IdleMin ≤ p.conf.IdleMax ∧ p.conf.Max ≤ p.conf.IdleMax ∧
      (p.freeList.cap : Int) = p.conf.IdleMax ∧
      p.freeList.buf = [] ∧ p.freeList.closed = false ∧ p.num = 0 :=
  NewClientPool_ok factory conf h

theorem NewClientPool_conf_witness :
    (0 : Int) ≤ max 1 2 ∧
    ∃ p, NewClientPool true ⟨0, 1, 2⟩ = .ok p ∧
      p.conf.IdleMax = max 1 2 ∧
      p.conf.IdleMin = min 0 (max 1 2) ∧
      p.conf.Max = 2 ∧
      p.conf.IdleMin ≤ p.conf.IdleMax ∧ p.conf.Max ≤ p.conf.IdleMax ∧
      (p.freeList.cap : Int) = p.conf.IdleMax ∧
      p.freeList.buf = [] ∧ p.freeList.closed = false ∧ p.num = 0 :=
  ⟨by decide, NewClientPool_conf true ⟨0, 1, 2⟩ (by decide)⟩

theorem openLoop_num (mk : Nat → Except Err Client) :
    ∀ (n i : Nat) (p q : ClientPool), (ClientPool.openLoop mk n i p).state? = some q →
      q.num ≤ p.num + n ∧ q.conf = p.conf ∧ q.closed = p.closed ∧
      q.freeList.closed = p.freeList.closed := by
  intro n
  induction n with
  | zero =>
    intro i p q h
    simp only [ClientPool.openLoop, Res.state?, Option.some.injEq] at h
    subst h
    simp
  | succ n ih =>
    intro i p q h
    unfold ClientPool.openLoop at h
    split at h
    · simp only [Res.state?, Option.some.injEq] at h
      subst h
      simp only [and_true]
      push_cast
      omega
    · dsimp only at h
      split_ifs at h with h1 h2
      · simp [Res.state?] at h
      · have := ih _ _ _ h
        simp only at this
        refine ⟨?_, this.2⟩
        push_cast
        omega
      · simp only [Res.state?, Option.some.injEq] at h
        subst h
        simp only [and_true]
        push_cast
        omega

/-- Every outcome of `Get` on an open pool. -/
theorem Get_open_cases (p : ClientPool) (pick : Nat) (fr : Except Err Client)
    (hc : p.closed = false) (hch : p.freeList.closed = false) :
    (∃ c rest, p.freeList.buf = c :: rest ∧
      p.Get pick fr = .ret (.pooledClient c)
        { p with freeList := { p.freeList with buf := rest } }) ∨
    (p.freeList.buf = [] ∧ p.conf.Max ≤ p.num ∧ p.ctxDone = false ∧
      p.Get pick fr = .blocked p) ∨
    (p.freeList.buf = [] ∧ p.conf.Max ≤ p.num ∧ p.ctxDone = true ∧
      p.Get pick fr = .ret (.errClient .ErrClientPoolClosed) p) ∨
    (p.freeList.buf = [] ∧ p.num < p.conf.Max ∧ p.factory = false ∧
      p.Get pick fr = .panic .nilDereference) ∨
    (p.freeList.buf = [] ∧ p.num < p.conf.Max ∧ p.factory = true ∧
      ∃ e, fr = .error e ∧
        p.Get pick fr = .ret (.errClient e) { p with factoryCalls := p.factoryCalls + 1 }) ∨
    (p.freeList.buf = [] ∧ p.num < p.conf.Max ∧ p.factory = true ∧
      ∃ c, fr = .ok c ∧
        p.Get pick fr = .ret (.pooledClient c)
          { p with factoryCalls := p.factoryCalls + 1, num := p.num + 1 }) := by
  rcases hbuf : p.freeList.buf with _ | ⟨c, rest⟩
  · right
    have hcr : p.freeList.canRecv = false := by simp [Chan.canRecv, hbuf, hch]
    by_cases hmax : p.conf.Max ≤ p.num
    · have hm : p.isMaxReached = true := by simp [ClientPool.isMaxReached, hmax]
      by_cases hd : p.ctxDone = true
      · right; left
        refine ⟨rfl, hmax, hd, ?_⟩
        simp [ClientPool.Get, ClientPool.get, ClientPool.getOpen, ClientPool.isClosed, hc, hcr,
          hm, ClientPool.getWait, ClientPool.getReady, hd, selectReady, Res.map, wrap, Nat.mod_one]
      · left
        have hd' : p.ctxDone = false := by simpa using hd
        refine ⟨rfl, hmax, hd', ?_⟩
        simp [ClientPool.Get, ClientPool.get, ClientPool.getOpen, ClientPool.isClosed, hc, hcr,
          hm, ClientPool.getWait, ClientPool.getReady, hd', selectReady, Res.map]
    · right; right
      have hlt : p.num < p.conf.Max := not_le.mp hmax
      have hm : p.isMaxReached = false := by simp [ClientPool.isMaxReached, hlt]
      by_cases hf : p.factory = true
      · right
        cases fr with
        | error e =>
          left
          refine ⟨rfl, hlt, hf, e, rfl, ?_⟩
          simp [ClientPool.Get, ClientPool.get, ClientPool.getOpen, ClientPool.isClosed, hc, hcr,
            hm, hf, Res.map, wrap]
        | ok c =>
          right
          refine ⟨rfl, hlt, hf, c, rfl, ?_⟩
          simp [ClientPool.Get, ClientPool.get, ClientPool.getOpen, ClientPool.isClosed, hc, hcr,
            hm, hf, Res.map, wrap]
      · left
        have hf' : p.factory = false := by simpa using hf
        refine ⟨rfl, hlt, hf', ?_⟩
        simp [ClientPool.Get, ClientPool.get, ClientPool.getOpen, ClientPool.isClosed, hc, hcr,
          hm, hf', Res.map]
  · left
    refine ⟨c, rest, rfl, ?_⟩
    have hcr : p.freeList.canRecv = true := by simp [Chan.canRecv, hbuf]
    simp [ClientPool.Get, ClientPool.get, ClientPool.getOpen, ClientPool.isClosed, hc, hcr,
      Chan.recv, hbuf, Res.map, wrap]

/-- Every outcome of closing a handle on an open pool. -/
theorem pooledClient_Close_open_cases (pc : pooledClient) (p : ClientPool)
    (hc : p.closed = false) (hch : p.freeList.closed = false) :
    (pc.live = false ∧ pc.Close p = .ok (pc, p)) ∨
    (pc.live = true ∧ p.freeList.buf.length < p.freeList.cap ∧
      pc.Close p = .ok ({ Client := .errClient .ErrClientClosed },
        { p with freeList := { p.freeList with buf := p.freeList.buf ++ [pc.Client] } })) ∨
    (pc.live = true ∧ p.freeList.cap ≤ p.freeList.buf.length ∧ pc.Client = .nil ∧
      pc.Close p = .error .nilDereference) ∨
    (pc.live = true ∧ p.freeList.cap ≤ p.freeList.buf.length ∧ ∃ id, pc.Client = .real id ∧
      pc.Close p = .ok ({ Client := .errClient .ErrClientClosed },
        { p with num := p.num - 1, closedClients := p.closedClients ++ [.real id] })) := by
  obtain ⟨c⟩ := pc
  cases c with
  | errClient e => left; exact ⟨rfl, rfl⟩
  | nil =>
    right
    by_cases hroom : p.freeList.buf.length < p.freeList.cap
    · left
      refine ⟨rfl, hroom, ?_⟩
      simp [pooledClient.Close, ClientPool.put, ClientPool.isClosed, hc, hch, hroom]
    · right; left
      refine ⟨rfl, not_lt.mp hroom, rfl, ?_⟩
      simp [pooledClient.Close, ClientPool.put, ClientPool.isClosed, hc, hch, hroom, Client.Close]
  | real id =>
    right
    by_cases hroom : p.freeList.buf.length < p.freeList.cap
    · left
      refine ⟨rfl, hroom, ?_⟩
      simp [pooledClient.Close, ClientPool.put, ClientPool.isClosed, hc, hch, hroom]
    · right; right
      refine ⟨rfl, not_lt.mp hroom, id, rfl, ?_⟩
      simp [pooledClient.Close, ClientPool.put, ClientPool.isClosed, hc, hch, hroom, Client.Close]

theorem countP_set_live (l : List pooledClient) :
    ∀ (i : Nat) (pc x : pooledClient), l.get? i = some pc →
      (l.set i x).countP pooledClient.live + (if pc.live then 1 else 0) =
        l.countP pooledClient.live + (if x.live then 1 else 0) := by
  induction l with
  | nil => intro i pc x h; simp at h
  | cons a l ih =>
    intro i pc x h
    cases i with
    | zero =>
      simp only [List.get?_cons_zero, Option.some.injEq] at h
      subst h
      simp only [List.set_cons_zero, List.countP_cons]
      omega
    | succ i =>
      simp only [List.get?_cons_succ] at h
      have := ih i pc x h
      simp only [List.set_cons_succ, List.countP_cons]
      omega

theorem live_errClient (e : Err) : (pooledClient.mk (.errClient e)).live = false := rfl

theorem step_balanced (n0 : Int) (s : Sys) (a : Action) (ha : a.served)
    (h : s.balanced n0) : ∃ s1, step s a = .ok s1 ∧ s1.balanced n0 := by
  obtain ⟨hc, hch, hf, hbuf, hh, hnum, hcap, hn0⟩ := h
  cases a with
  | Open mk => exact absurd ha (by simp [Action.served])
  | Get pick fr =>
    obtain ⟨id, hfr⟩ := ha
    rcases Get_open_cases s.pool pick fr hc hch with
      ⟨c, rest, hb, hg⟩ | ⟨hb, hmax, hd, hg⟩ | ⟨hb, hmax, hd, hg⟩ | ⟨hb, hlt, hf', hg⟩ |
      ⟨hb, hlt, _, e, he, hg⟩ | ⟨hb, hlt, _, c, hc', hg⟩
    · have hstep : step s (.Get pick fr) = .ok
          { pool := { s.pool with freeList := { s.pool.freeList with buf := rest } },
            handles := s.handles ++ [{ Client := c }] } := by
        simp only [step, hg]
      obtain ⟨id', hid⟩ := hbuf c (by rw [hb]; exact List.mem_cons_self _ _)
      refine ⟨_, hstep, hc, hch, hf, ?_, ?_, ?_, hcap, hn0⟩
      · intro c' hc''
        exact hbuf c' (by rw [hb]; exact List.mem_cons_of_mem _ hc'')
      · intro h' hm
        rcases List.mem_append.mp hm with hm | hm
        · exact hh h' hm
        · simp only [List.mem_singleton] at hm
          subst hm
          simp [hid]
      · show s.pool.num = (rest.length : Int) +
          ((s.handles ++ [pooledClient.mk c]).countP pooledClient.live : Int)
        simp only [List.countP_append, List.countP_cons, List.countP_nil, hid, pooledClient.live]
        rw [hnum, hb]
        simp only [List.length_cons]
        push_cast
        omega
    · have hstep : step s (.Get pick fr) = .ok s := by simp only [step, hg]
      exact ⟨_, hstep, hc, hch, hf, hbuf, hh, hnum, hcap, hn0⟩
    · have hstep : step s (.Get pick fr) = .ok s := by simp only [step, hg]
      exact ⟨_, hstep, hc, hch, hf, hbuf, hh, hnum, hcap, hn0⟩
    · rw [hf] at hf'; exact absurd hf' (by simp)
    · rw [hfr] at he; exact absurd he (by simp)
    · rw [hfr] at hc'
      simp only [Except.ok.injEq] at hc'
      subst hc'
      have hstep : step s (.Get pick fr) = .ok
          { pool := { s.pool with factoryCalls := s.pool.factoryCalls + 1,
                                  num := s.pool.num + 1 },
            handles := s.handles ++ [{ Client := .real id }] } := by
        simp only [step, hg]
      refine ⟨_, hstep, hc, hch, hf, hbuf, ?_, ?_, hcap, ?_⟩
      · intro h' hm
        rcases List.mem_append.mp hm with hm | hm
        · exact hh h' hm
        · simp only [List.mem_singleton] at hm
          subst hm
          simp
      · show s.pool.num + 1 = (s.pool.freeList.buf.length : Int) +
          ((s.handles ++ [pooledClient.mk (.real id)]).countP pooledClient.live : Int)
        simp only [List.countP_append, List.countP_cons, List.countP_nil, pooledClient.live]
        rw [hnum]
        push_cast
        omega
      · show n0 ≤ s.pool.num + 1
        omega
  | Close i =>
    rcases hget : s.handles.get? i with _ | pc
    · have hstep : step s (.Close i) = .ok s := by simp only [step, hget]
      exact ⟨s, hstep, hc, hch, hf, hbuf, hh, hnum, hcap, hn0⟩
    · have hmem : pc ∈ s.handles := List.get?_mem hget
      have hcount := fun x => countP_set_live s.handles i pc x hget
      rcases pooledClient_Close_open_cases pc s.pool hc hch with
        ⟨hl, hg⟩ | ⟨hl, hroom, hg⟩ | ⟨hl, hfull, hnil, hg⟩ | ⟨hl, hfull, id, hid, hg⟩
      · have hstep : step s (.Close i) = .ok
            { pool := s.pool, handles := s.handles.set i pc } := by
          simp only [step, hget, hg]
        refine ⟨_, hstep, hc, hch, hf, hbuf, ?_, ?_, hcap, hn0⟩
        · intro h' hm
          rcases List.mem_or_eq_of_mem_set hm with hm | hm
          · exact hh h' hm
          · subst hm; exact hh _ hmem
        · have := hcount pc
          show s.pool.num = (s.pool.freeList.buf.length : Int) +
            ((s.handles.set i pc).countP pooledClient.live : Int)
          rw [hnum]; omega
      · have hne := hh pc hmem
        have hstep : step s (.Close i) = .ok
            { pool := { s.pool with freeList :=
                { s.pool.freeList with buf := s.pool.freeList.buf ++ [pc.Client] } },
              handles := s.handles.set i { Client := .errClient .ErrClientClosed } } := by
          simp only [step, hget, hg]
        refine ⟨_, hstep, hc, hch, hf, ?_, ?_, ?_, hcap, hn0⟩
        · intro c hm
          rcases List.mem_append.mp hm with hm | hm
          · exact hbuf c hm
          · simp only [List.mem_singleton] at hm
            subst hm
            cases hpc : pc.Client with
            | nil => exact absurd hpc hne
            | real id => exact ⟨id, rfl⟩
            | errClient e => simp [pooledClient.live, hpc] at hl
        · intro h' hm
          rcases List.mem_or_eq_of_mem_set hm with hm | hm
          · exact hh h' hm
          · subst hm; simp
        · have := hcount ⟨.errClient .ErrClientClosed⟩
          rw [hl, live_errClient] at this
          show s.pool.num = ((s.pool.freeList.buf ++ [pc.Client]).length : Int) +
            ((s.handles.set i ⟨.errClient .ErrClientClosed⟩).countP pooledClient.live : Int)
          rw [hnum, List.length_append]
          simp at this ⊢
          omega
      · exact absurd hnil (hh pc hmem)
      · have hstep : step s (.Close i) = .ok
            { pool := { s.pool with num := s.pool.num - 1,
                                    closedClients := s.pool.closedClients ++ [.real id] },
              handles := s.handles.set i { Client := .errClient .ErrClientClosed } } := by
          simp only [step, hget, hg]
        have hcnt := hcount ⟨.errClient .ErrClientClosed⟩
        rw [hl, live_errClient] at hcnt
        simp at hcnt
        refine ⟨_, hstep, hc, hch, hf, hbuf, ?_, ?_, hcap, ?_⟩
        · intro h' hm
          rcases List.mem_or_eq_of_mem_set hm with hm | hm
          · exact hh h' hm
          · subst hm; simp
        · show s.pool.num - 1 = (s.pool.freeList.buf.length : Int) +
            ((s.handles.set i ⟨.errClient .ErrClientClosed⟩).countP pooledClient.live : Int)
          rw [hnum]
          omega
        · show n0 ≤ s.pool.num - 1
          omega

theorem step_num_le (s s1 : Sys) (a : Action) (ha : a.isOpen = false)
    (hs : step s a = .ok s1)
    (h : s.pool.closed = false ∧ s.pool.freeList.closed = false ∧
      s.pool.num ≤ s.pool.conf.Max) :
    (s1.pool.closed = false ∧ s1.pool.freeList.closed = false ∧
      s1.pool.num ≤ s1.pool.conf.Max) ∧ s1.pool.conf = s.pool.conf := by
  obtain ⟨hc, hch, hle⟩ := h
  cases a with
  | Open mk => simp [Action.isOpen] at ha
  | Get pick fr =>
    rcases Get_open_cases s.pool pick fr hc hch with
      ⟨c, rest, hb, hg⟩ | ⟨hb, hmax, hd, hg⟩ | ⟨hb, hmax, hd, hg⟩ | ⟨hb, hlt, hf', hg⟩ |
      ⟨hb, hlt, _, e, he, hg⟩ | ⟨hb, hlt, _, c, hc', hg⟩ <;>
      simp only [step, hg, Except.ok.injEq, reduceCtorEq] at hs <;> subst hs
    · exact ⟨⟨hc, hch, hle⟩, rfl⟩
    · exact ⟨⟨hc, hch, hle⟩, rfl⟩
    · exact ⟨⟨hc, hch, hle⟩, rfl⟩
    · exact ⟨⟨hc, hch, hle⟩, rfl⟩
    · refine ⟨⟨hc, hch, ?_⟩, rfl⟩
      show s.pool.num + 1 ≤ s.pool.conf.Max
      omega
  | Close i =>
    rcases hget : s.handles.get? i with _ | pc
    · simp only [step, hget, Except.ok.injEq] at hs
      subst hs
      exact ⟨⟨hc, hch, hle⟩, rfl⟩
    · rcases pooledClient_Close_open_cases pc s.pool hc hch with
        ⟨hl, hg⟩ | ⟨hl, hroom, hg⟩ | ⟨hl, hfull, hnil, hg⟩ | ⟨hl, hfull, id, hid, hg⟩ <;>
        simp only [step, hget, hg, Except.ok.injEq, reduceCtorEq] at hs <;> subst hs
      · exact ⟨⟨hc, hch, hle⟩, rfl⟩
      · exact ⟨⟨hc, hch, hle⟩, rfl⟩
      · refine ⟨⟨hc, hch, ?_⟩, rfl⟩
        show s.pool.num - 1 ≤ s.pool.conf.Max
        omega

theorem run_num_le : ∀ (acts : List Action) (s s1 : Sys),
    (∀ a ∈ acts, a.isOpen = false) → run s acts = .ok s1 →
    (s.pool.closed = false ∧ s.pool.freeList.closed = false ∧
      s.pool.num ≤ s.pool.conf.Max) →
    s1.pool.num ≤ s1.pool.conf.Max ∧ s1.pool.conf = s.pool.conf := by
  intro acts
  induction acts with
  | nil =>
    intro s s1 _ hr h
    simp only [run, Except.ok.injEq] at hr
    subst hr
    exact ⟨h.2.2, rfl⟩
  | cons a rest ih =>
    intro s s1 ha hr h
    unfold run at hr
    split at hr
    · simp at hr
    · rename_i s2 hstep
      have h2 := step_num_le s s2 a (ha a (List.mem_cons_self _ _)) hstep h
      have h3 := ih s2 s1 (fun b hb => ha b (List.mem_cons_of_mem _ hb)) hr h2.1
      exact ⟨h3.1, h3.2.trans h2.2⟩

theorem run_balanced (n0 : Int) : ∀ (acts : List Action) (s : Sys),
    (∀ a ∈ acts, a.served) → s.balanced n0 →
    ∃ s1, run s acts = .ok s1 ∧ s1.balanced n0 := by
  intro acts
  induction acts with
  | nil => intro s _ h; exact ⟨s, rfl, h⟩
  | cons a rest ih =>
    intro s ha h
    obtain ⟨s2, hstep, h2⟩ := step_balanced n0 s a (ha a (List.mem_cons_self _ _)) h
    obtain ⟨s1, hrun, h1⟩ := ih s2 (fun b hb => ha b (List.mem_cons_of_mem _ hb)) h2
    exact ⟨s1, by simp only [run, hstep, hrun], h1⟩

theorem openLoop_fresh (mk : Nat → Except Err Client)
    (hmk : ∀ i, ∃ id, mk i = .ok (.real id)) :
    ∀ (n i : Nat) (p : ClientPool), p.freeList.closed = false →
      p.freeList.buf.length + n ≤ p.freeList.cap →
      (∀ c ∈ p.freeList.buf, ∃ id, c = Client.real id) →
      ∃ q, ClientPool.openLoop mk n i p = .ret none q ∧ q.num = p.num + n ∧
        q.freeList.buf.length = p.freeList.buf.length + n ∧
        (∀ c ∈ q.freeList.buf, ∃ id, c = Client.real id) ∧
        q.closed = p.closed ∧ q.freeList.closed = false ∧
        q.freeList.cap = p.freeList.cap ∧ q.factory = p.factory ∧ q.conf = p.conf := by
  intro n
  induction n with
  | zero =>
    intro i p hch _ hb
    exact ⟨p, rfl, by simp, by simp, hb, rfl, hch, rfl, rfl, rfl⟩
  | succ n ih =>
    intro i p hch hroom hb
    obtain ⟨id, hid⟩ := hmk i
    have hlt : p.freeList.buf.length < p.freeList.cap := by omega
    obtain ⟨q, hq, h1, h2, h3, h4, h5, h6, h7, h8⟩ := ih (i + 1)
      { p with factoryCalls := p.factoryCalls + 1, num := p.num + 1,
               freeList := { p.freeList with buf := p.freeList.buf ++ [.real id] } }
      hch (by simp only [List.length_append, List.length_singleton]; omega)
      (by
        intro c hc
        rcases List.mem_append.mp hc with hc | hc
        · exact hb c hc
        · exact ⟨id, by simpa using hc⟩)
    refine ⟨q, ?_, ?_, ?_, h3, h4, h5, h6, h7, h8⟩
    · simp only [ClientPool.openLoop, hid]
      rw [if_neg (by simp [hch]), if_pos hlt]
      exact hq
    · rw [h1]; push_cast; show p.num + 1 + (n : Int) = p.num + ((n : Int) + 1); omega
    · rw [h2]; simp only [List.length_append, List.length_singleton]; omega

/-- C2 (as stated) fails. With `IdleMin = IdleMax = 3, Max = 1` a single `Open` leaves
`num = 3 > Max`; with `IdleMin = IdleMax = Max = 1` the sequence `Open, Get, Open` leaves
`num = 2 > Max`. -/
theorem num_exceeds_Max :
    (∃ s, boot true ⟨3, 3, 1⟩ [.Open (freshFrom 0)] = .ok s ∧
      s.pool.conf.Max = 1 ∧ s.pool.num = 3) ∧
    (∃ s, boot true ⟨1, 1, 1⟩
        [.Open (freshFrom 0), .Get 0 (.ok (.real 10)), .Open (freshFrom 5)] = .ok s ∧
      s.pool.conf.Max = 1 ∧ s.pool.num = 2) :=
  ⟨⟨_, rfl, rfl, rfl⟩, ⟨_, rfl, rfl, rfl⟩⟩

/-- C2 (amended): when `0 ≤ Max` and `IdleMin ≤ Max`, every state reached from
`NewClientPool` by at most one `Open`, made before anything else, followed by any sequence
of `Get` and handle `Close` calls (whatever the factory answers) has `num ≤ Max`. -/
theorem num_le_Max (factory : Bool) (conf : ClientPoolConfig) (first : Bool)
    (mk : Nat → Except Err Client) (acts : List Action) (s : Sys)
    (h0 : 0 ≤ conf.Max) (h1 : conf.IdleMin ≤ conf.Max)
    (hacts : ∀ a ∈ acts, a.isOpen = false)
    (hrun : boot factory conf ((if first then [Action.Open mk] else []) ++ acts) = .ok s) :
    s.pool.num ≤ conf.Max := by
  obtain ⟨p0, hp0, hI, hm, hM, -, -, -, -, hch0, hnum0⟩ :=
    NewClientPool_ok factory conf (le_trans h0 (le_max_right _ _))
  have hc0 : p0.closed = false := by
    have hnn : ¬ (normalize conf).IdleMax < 0 := by
      rw [normalize_IdleMax]; exact not_lt.mpr (le_trans h0 (le_max_right _ _))
    simp only [NewClientPool, if_neg hnn, Except.ok.injEq] at hp0
    rw [← hp0]
  simp only [boot, hp0] at hrun
  cases first with
  | false =>
    simp only [Bool.false_eq_true, if_false, List.nil_append] at hrun
    have := run_num_le acts _ s hacts hrun ⟨hc0, hch0, by show p0.num ≤ p0.conf.Max; omega⟩
    have h2 : s.pool.conf = p0.conf := this.2
    rw [← hM, ← h2]
    exact this.1
  | true =>
    simp only [if_true, List.singleton_append] at hrun
    unfold run at hrun
    split at hrun
    · simp at hrun
    · rename_i s2 hstep
      have hs2 : s2.pool.closed = false ∧ s2.pool.freeList.closed = false ∧
          s2.pool.num ≤ s2.pool.conf.Max ∧ s2.pool.conf = p0.conf := by
        have hmin : p0.conf.IdleMin ≤ conf.Max := by
          rw [hm]; exact le_trans (min_le_left _ _) h1
        have hbound : ∀ q, (ClientPool.openLoop mk p0.conf.IdleMin.toNat 0 p0).state? = some q →
            q.closed = false ∧ q.freeList.closed = false ∧ q.num ≤ q.conf.Max ∧
              q.conf = p0.conf := by
          intro q hq
          obtain ⟨a1, a2, a3, a4⟩ := openLoop_num mk _ _ _ _ hq
          refine ⟨a3.trans hc0, a4.trans hch0, ?_, a2⟩
          rw [a2, hM]
          have : ((p0.conf.IdleMin.toNat : Nat) : Int) ≤ conf.Max := by
            rcases le_total 0 p0.conf.IdleMin with hpos | hneg
            · rw [Int.toNat_of_nonneg hpos]; exact hmin
            · rw [Int.toNat_of_nonpos hneg]; exact h0
          omega
        simp only [step, ClientPool.Open] at hstep
        split at hstep
        · rename_i r q hres
          split_ifs at hres
          simp only [Except.ok.injEq] at hstep
          subst hstep
          exact hbound q (by rw [hres]; rfl)
        · rename_i q hres
          split_ifs at hres
          simp only [Except.ok.injEq] at hstep
          subst hstep
          exact hbound q (by rw [hres]; rfl)
        · simp at hstep
      have := run_num_le acts s2 s hacts hrun ⟨hs2.1, hs2.2.1, hs2.2.2.1⟩
      have h2 : s.pool.conf = s2.pool.conf := this.2
      rw [← hM, ← hs2.2.2.2, ← h2]
      exact this.1

theorem num_le_Max_witness :
    (0 : Int) ≤ 4 ∧ (2 : Int) ≤ 4 ∧
    (∃ s, boot true ⟨2, 4, 4⟩ ((if true then [Action.Open (freshFrom 0)] else []) ++
        [.Get 0 (.ok (.real 10)), .Get 0 (.ok (.real 11)), .Get 0 (.ok (.real 12)),
         .Get 0 (.ok (.real 13)), .Get 0 (.ok (.real 14)), .Close 1]) = .ok s ∧
      s.pool.num ≤ 4) :=
  ⟨by decide, by decide, _, rfl,
    num_le_Max true ⟨2, 4, 4⟩ true (freshFrom 0)
      [.Get 0 (.ok (.real 10)), .Get 0 (.ok (.real 11)), .Get 0 (.ok (.real 12)),
       .Get 0 (.ok (.real 13)), .Get 0 (.ok (.real 14)), .Close 1] _
      (by decide) (by decide) (by simp [Action.isOpen]) rfl⟩

/-- C3 (as stated) fails: for `Pool(idle-min=0, idle-max=1, max=2)` the live-count is 0 after
`Open`, and after two `Get`s and the close of both handles it is 2, not 0. -/
theorem live_count_not_restored :
    ∃ p0 p1 s, NewClientPool true ⟨0, 1, 2⟩ = .ok p0 ∧ p0.Open (freshFrom 0) = .ret none p1 ∧
      run ⟨p1, []⟩ [.Get 0 (.ok (.real 10)), .Get 0 (.ok (.real 11)), .Close 0, .Close 1]
        = .ok s ∧
      (∀ h ∈ s.handles, h.live = false) ∧ p1.num = 0 ∧ s.pool.num = 2 :=
  ⟨_, _, _, rfl, rfl, rfl, by decide, rfl, rfl⟩

/-- C3 (amended): for every pool that `NewClientPool` builds and `Open` pre-warms with a
succeeding factory, every sequence of `Get` and handle `Close` calls runs without panic, the
live-count never drops below its value after `Open`, and once every handle has been closed
the live-count equals the number of idle clients in the free-list. -/
theorem live_count_after_closing (conf : ClientPoolConfig) (mk : Nat → Except Err Client)
    (acts : List Action)
    (hconf : 0 ≤ max conf.IdleMax conf.Max)
    (hmk : ∀ i, ∃ id, mk i = .ok (.real id))
    (hacts : ∀ a ∈ acts, a.served) :
    ∃ p0 p1 s, NewClientPool true conf = .ok p0 ∧ p0.Open mk = .ret none p1 ∧
      p1.num = p1.conf.IdleMin.toNat ∧
      run ⟨p1, []⟩ acts = .ok s ∧ p1.num ≤ s.pool.num ∧
      ((∀ h ∈ s.handles, h.live = false) →
        s.pool.num = (s.pool.freeList.buf.length : Int)) := by
  have hnn : ¬ (normalize conf).IdleMax < 0 := by
    rw [normalize_IdleMax]; exact not_lt.mpr hconf
  obtain ⟨p0, hp0, hI, hm, hM, hle, -, hcap, hbuf0, hch0, hnum0⟩ :=
    NewClientPool_ok true conf hconf
  have hp0' := hp0
  simp only [NewClientPool, if_neg hnn, Except.ok.injEq] at hp0'
  have hc0 : p0.closed = false := by rw [← hp0']
  have hf0 : p0.factory = true := by rw [← hp0']
  have hroom : p0.freeList.buf.length + p0.conf.IdleMin.toNat ≤ p0.freeList.cap := by
    rw [hbuf0]
    simp only [List.length_nil, zero_add]
    have : ((p0.conf.IdleMin.toNat : Nat) : Int) ≤ (p0.freeList.cap : Int) := by
      rw [hcap]
      rcases le_total 0 p0.conf.IdleMin with hpos | hneg
      · rw [Int.toNat_of_nonneg hpos]; exact hle
      · rw [Int.toNat_of_nonpos hneg, ← hcap]; exact Int.natCast_nonneg _
    exact_mod_cast this
  obtain ⟨p1, hopen, h1, h2, h3, h4, h5, h6, h7, h8⟩ :=
    openLoop_fresh mk hmk p0.conf.IdleMin.toNat 0 p0 hch0 hroom (by rw [hbuf0]; simp)
  have hOpen : p0.Open mk = .ret none p1 := by
    simp only [ClientPool.Open, hf0, Bool.not_true, Bool.false_eq_true, if_false]
    exact hopen
  have hnum1 : p1.num = p1.conf.IdleMin.toNat := by rw [h1, hnum0, h8]; simp
  have hbal : Sys.balanced p1.num ⟨p1, []⟩ := by
    refine ⟨h4.trans hc0, h5, h7.trans hf0, h3, by simp, ?_, ?_, le_refl _⟩
    · show p1.num = (p1.freeList.buf.length : Int) + (([] : List pooledClient).countP _ : Int)
      rw [h1, h2, hnum0, hbuf0]; simp
    · show p1.num ≤ (p1.freeList.cap : Int)
      rw [h1, hnum0, h6]
      have : ((p0.freeList.buf.length + p0.conf.IdleMin.toNat : Nat) : Int) ≤
          (p0.freeList.cap : Int) := by exact_mod_cast hroom
      rw [hbuf0] at this
      simpa using this
  obtain ⟨s, hrun, hs⟩ := run_balanced p1.num acts ⟨p1, []⟩ hacts hbal
  refine ⟨p0, p1, s, hp0, hOpen, hnum1, hrun, hs.2.2.2.2.2.2.2, ?_⟩
  intro hall
  have hz : s.handles.countP pooledClient.live = 0 := by
    rw [List.countP_eq_zero]
    intro h hh
    simp [hall h hh]
  rw [hs.2.2.2.2.2.1, hz]
  simp

theorem live_count_after_closing_witness :
    (0 : Int) ≤ max 1 2 ∧
    ∃ p0 p1 s, NewClientPool true ⟨0, 1, 2⟩ = .ok p0 ∧ p0.Open (freshFrom 0) = .ret none p1 ∧
      p1.num = p1.conf.IdleMin.toNat ∧
      run ⟨p1, []⟩ [.Get 0 (.ok (.real 10)), .Get 0 (.ok (.real 11)), .Close 0, .Close 1]
        = .ok s ∧ p1.num ≤ s.pool.num ∧
      ((∀ h ∈ s.handles, h.live = false) →
        s.pool.num = (s.pool.freeList.buf.length : Int)) :=
  ⟨by decide,
    live_count_after_closing ⟨0, 1, 2⟩ (freshFrom 0)
      [.Get 0 (.ok (.real 10)), .Get 0 (.ok (.real 11)), .Close 0, .Close 1]
      (by decide) (fun i => ⟨0 + i, rfl⟩)
      (by
        intro a ha
        simp only [List.mem_cons, List.mem_singleton, List.not_mem_nil, or_false] at ha
        rcases ha with rfl | rfl | rfl | rfl
        · exact ⟨10, rfl⟩
        · exact ⟨11, rfl⟩
        · exact trivial
        · exact trivial)⟩

/-- C4: on an open pool `Get` hands out the head of the free-list when there is one, leaving
`num` and the factory untouched; with an empty free-list and `num < Max` it asks the factory
once and, on success, wraps the new client and adds one to `num` (on failure `num` is
unchanged); with an empty free-list and `num ≥ Max` it parks without asking the factory.
For `idle-min=2, idle-max=4, max=4`: `Open` leaves two clients in the free-list, four `Get`s
hand out four handles, a fifth `Get` parks whatever the factory would answer, and after one
handle is closed the parked `Get` completes with the returned client. -/
theorem Get_state_machine :
    (∀ (p : ClientPool) (pick : Nat) (fr : Except Err Client),
      p.closed = false → p.freeList.closed = false →
      (∀ c rest, p.freeList.buf = c :: rest →
        p.Get pick fr = .ret (.pooledClient c)
          { p with freeList := { p.freeList with buf := rest } }) ∧
      (p.freeList.buf = [] → p.num < p.conf.Max → p.factory = true →
        (∀ c, fr = .ok c →
          p.Get pick fr = .ret (.pooledClient c)
            { p with factoryCalls := p.factoryCalls + 1, num := p.num + 1 }) ∧
        (∀ e, fr = .error e →
          p.Get pick fr = .ret (.errClient e)
            { p with factoryCalls := p.factoryCalls + 1 })) ∧
      (p.freeList.buf = [] → p.conf.Max ≤ p.num → p.ctxDone = false →
        p.Get pick fr = .blocked p)) ∧
    (NewClientPool true ⟨2, 4, 4⟩ = .ok (openPool ⟨2, 4, 4⟩ 4 0 [] 0) ∧
      (openPool ⟨2, 4, 4⟩ 4 0 [] 0).Open (freshFrom 0) =
        .ret none (openPool ⟨2, 4, 4⟩ 4 2 [.real 0, .real 1] 2) ∧
      run ⟨openPool ⟨2, 4, 4⟩ 4 2 [.real 0, .real 1] 2, []⟩
        [.Get 0 (.ok (.real 10)), .Get 0 (.ok (.real 11)),
         .Get 0 (.ok (.real 12)), .Get 0 (.ok (.real 13))] =
        .ok ⟨openPool ⟨2, 4, 4⟩ 4 4 [] 4, [⟨.real 0⟩, ⟨.real 1⟩, ⟨.real 12⟩, ⟨.real 13⟩]⟩ ∧
      (∀ pick fr, (openPool ⟨2, 4, 4⟩ 4 4 [] 4).Get pick fr =
        .blocked (openPool ⟨2, 4, 4⟩ 4 4 [] 4)) ∧
      step ⟨openPool ⟨2, 4, 4⟩ 4 4 [] 4, [⟨.real 0⟩, ⟨.real 1⟩, ⟨.real 12⟩, ⟨.real 13⟩]⟩
        (.Close 2) =
        .ok ⟨openPool ⟨2, 4, 4⟩ 4 4 [.real 12] 4,
          [⟨.real 0⟩, ⟨.real 1⟩, ⟨.errClient .ErrClientClosed⟩, ⟨.real 13⟩]⟩ ∧
      (∀ pick, (openPool ⟨2, 4, 4⟩ 4 4 [.real 12] 4).GetResume pick =
        .ret (.pooledClient (.real 12)) (openPool ⟨2, 4, 4⟩ 4 4 [] 4))) := by
  refine ⟨?_, ?_⟩
  · intro p pick fr hc hch
    have hcases := Get_open_cases p pick fr hc hch
    refine ⟨?_, ?_, ?_⟩
    · intro c rest hb
      rcases hcases with ⟨c', rest', hb', hg⟩ | ⟨hb', _⟩ | ⟨hb', _⟩ | ⟨hb', _⟩ | ⟨hb', _⟩ |
        ⟨hb', _⟩
      · rw [hb] at hb'
        simp only [List.cons.injEq] at hb'
        rw [hb'.1, hb'.2]; exact hg
      all_goals (rw [hb] at hb'; exact absurd hb' (by simp))
    · intro hb hlt hf
      refine ⟨?_, ?_⟩
      · intro c hfr
        rcases hcases with ⟨c', rest', hb', _⟩ | ⟨_, hmax, _⟩ | ⟨_, hmax, _⟩ | ⟨_, _, hf', _⟩ |
          ⟨_, _, _, e, he, _⟩ | ⟨_, _, _, c', hc', hg⟩
        · rw [hb] at hb'; exact absurd hb' (by simp)
        · omega
        · omega
        · rw [hf] at hf'; exact absurd hf' (by simp)
        · rw [hfr] at he; exact absurd he (by simp)
        · rw [hfr] at hc'
          simp only [Except.ok.injEq] at hc'
          rw [hc']; exact hg
      · intro e hfr
        rcases hcases with ⟨c', rest', hb', _⟩ | ⟨_, hmax, _⟩ | ⟨_, hmax, _⟩ | ⟨_, _, hf', _⟩ |
          ⟨_, _, _, e', he, hg⟩ | ⟨_, _, _, c', hc', _⟩
        · rw [hb] at hb'; exact absurd hb' (by simp)
        · omega
        · omega
        · rw [hf] at hf'; exact absurd hf' (by simp)
        · rw [hfr] at he
          simp only [Except.error.injEq] at he
          rw [he]; exact hg
        · rw [hfr] at hc'; exact absurd hc' (by simp)
    · intro hb hmax hd
      rcases hcases with ⟨c', rest', hb', _⟩ | ⟨_, _, _, hg⟩ | ⟨_, _, hd', _⟩ | ⟨_, hlt, _⟩ |
        ⟨_, hlt, _⟩ | ⟨_, hlt, _⟩
      · rw [hb] at hb'; exact absurd hb' (by simp)
      · exact hg
      · rw [hd] at hd'; exact absurd hd' (by simp)
      · omega
      · omega
      · omega
  · refine ⟨rfl, rfl, rfl, ?_, rfl, ?_⟩
    · intro pick fr
      rcases Get_open_cases (openPool ⟨2, 4, 4⟩ 4 4 [] 4) pick fr rfl rfl with
        ⟨c, rest, hb, _⟩ | ⟨_, _, _, hg⟩ | ⟨_, _, hd, _⟩ | ⟨_, hlt, _⟩ | ⟨_, hlt, _⟩ |
        ⟨_, hlt, _⟩
      · exact absurd hb (by simp [openPool])
      · exact hg
      · exact absurd hd (by decide)
      · exact absurd hlt (by decide)
      · exact absurd hlt (by decide)
      · exact absurd hlt (by decide)
    · intro pick
      simp [ClientPool.GetResume, ClientPool.getWait, ClientPool.getReady, Chan.canRecv,
        selectReady, Nat.mod_one, Chan.recv, Res.map, wrap, openPool]

theorem Get_state_machine_witness :
    ((openPool ⟨0, 1, 1⟩ 1 0 [] 0).closed = false ∧
      (openPool ⟨0, 1, 1⟩ 1 0 [] 0).freeList.closed = false ∧
      (openPool ⟨0, 1, 1⟩ 1 0 [] 0).freeList.buf = [] ∧
      (openPool ⟨0, 1, 1⟩ 1 0 [] 0).num < (openPool ⟨0, 1, 1⟩ 1 0 [] 0).conf.Max ∧
      (openPool ⟨0, 1, 1⟩ 1 0 [] 0).factory = true ∧
      (openPool ⟨0, 1, 1⟩ 1 0 [] 0).Get 0 (.ok (.real 7)) =
        .ret (.pooledClient (.real 7)) (openPool ⟨0, 1, 1⟩ 1 1 [] 1)) ∧
    ((openPool ⟨0, 1, 1⟩ 1 1 [.real 7] 1).freeList.buf = [.real 7] ∧
      (openPool ⟨0, 1, 1⟩ 1 1 [.real 7] 1).Get 0 (.ok (.real 8)) =
        .ret (.pooledClient (.real 7)) (openPool ⟨0, 1, 1⟩ 1 1 [] 1)) ∧
    ((openPool ⟨0, 1, 1⟩ 1 1 [] 1).conf.Max ≤ (openPool ⟨0, 1, 1⟩ 1 1 [] 1).num ∧
      (openPool ⟨0, 1, 1⟩ 1 1 [] 1).ctxDone = false ∧
      (openPool ⟨0, 1, 1⟩ 1 1 [] 1).Get 0 (.ok (.real 8)) =
        .blocked (openPool ⟨0, 1, 1⟩ 1 1 [] 1)) :=
  ⟨⟨rfl, rfl, rfl, by decide, rfl,
      ((Get_state_machine.1 (openPool ⟨0, 1, 1⟩ 1 0 [] 0) 0 (.ok (.real 7)) rfl rfl).2.1
        rfl (by decide) rfl).1 _ rfl⟩,
    ⟨rfl, (Get_state_machine.1 (openPool ⟨0, 1, 1⟩ 1 1 [.real 7] 1) 0 (.ok (.real 8))
      rfl rfl).1 _ _ rfl⟩,
    ⟨by decide, rfl, (Get_state_machine.1 (openPool ⟨0, 1, 1⟩ 1 1 [] 1) 0 (.ok (.real 8))
      rfl rfl).2.2 rfl (by decide) rfl⟩⟩

/-- C5 (code evaluated at the failing input): on the pool built from
`IdleMin = 0, IdleMax = 1, Max = 1`, a first `Get` takes the only client, a second `Get` parks in
the blocking `select`, and `Close` then closes the free-list. When the parked `select` is
resolved to the receive (`pick = 1`), `Get` returns a `pooledClient` wrapping the nil client
instead of the sentinel carrying `ErrClientPoolClosed`; the same happens to a `Get` that passed
the `isClosed` test just before `Close` ran. Only the other resolution (`pick = 0`) yields the
sentinel. -/
theorem Get_after_Close_wraps_nil :
    NewClientPool true ⟨0, 1, 1⟩ = .ok (openPool ⟨0, 1, 1⟩ 1 0 [] 0) ∧
    (openPool ⟨0, 1, 1⟩ 1 0 [] 0).Get 0 (.ok (.real 7)) =
      .ret (.pooledClient (.real 7)) (openPool ⟨0, 1, 1⟩ 1 1 [] 1) ∧
    (openPool ⟨0, 1, 1⟩ 1 1 [] 1).Get 0 (.ok (.real 8)) =
      .blocked (openPool ⟨0, 1, 1⟩ 1 1 [] 1) ∧
    (openPool ⟨0, 1, 1⟩ 1 1 [] 1).Close = .ok (shutPool ⟨0, 1, 1⟩ 1 1 1 []) ∧
    (shutPool ⟨0, 1, 1⟩ 1 1 1 []).GetResume 1 =
      .ret (.pooledClient .nil) (shutPool ⟨0, 1, 1⟩ 1 1 1 []) ∧
    ((shutPool ⟨0, 1, 1⟩ 1 1 1 []).getOpen 0 (.ok (.real 8))).map wrap =
      .ret (.pooledClient .nil) (shutPool ⟨0, 1, 1⟩ 1 1 1 []) ∧
    (shutPool ⟨0, 1, 1⟩ 1 1 1 []).GetResume 0 =
      .ret (.errClient .ErrClientPoolClosed) (shutPool ⟨0, 1, 1⟩ 1 1 1 []) :=
  ⟨rfl, rfl, rfl, rfl, rfl, rfl, rfl⟩

/-- C6: closing a handle that wraps a factory-made client returns that client exactly once.
On an open pool with room in the free-list the client is appended to the free-list and `num`
is unchanged; with a full free-list the client is closed and `num` drops by one; on a closed
pool the client is closed at once. Afterwards the handle holds `errClient(ErrClientClosed)`,
and closing it again changes neither the handle nor the pool. -/
theorem pooledClient_Close_spec (p : ClientPool) (id : Nat) :
    (p.closed = false → p.freeList.closed = false →
      p.freeList.buf.length < p.freeList.cap →
      (pooledClient.mk (.real id)).Close p =
        .ok (⟨.errClient .ErrClientClosed⟩,
          { p with freeList := { p.freeList with buf := p.freeList.buf ++ [.real id] } })) ∧
    (p.closed = false → p.freeList.closed = false →
      p.freeList.cap ≤ p.freeList.buf.length →
      (pooledClient.mk (.real id)).Close p =
        .ok (⟨.errClient .ErrClientClosed⟩,
          { p with num := p.num - 1, closedClients := p.closedClients ++ [.real id] })) ∧
    (p.closed = true →
      (pooledClient.mk (.real id)).Close p =
        .ok (⟨.errClient .ErrClientClosed⟩,
          { p with closedClients := p.closedClients ++ [.real id] })) ∧
    (∀ pc1 p1, (pooledClient.mk (.real id)).Close p = .ok (pc1, p1) →
      pc1.Client = .errClient .ErrClientClosed ∧ pc1.Close p1 = .ok (pc1, p1)) := by
  refine ⟨?_, ?_, ?_, ?_⟩
  · intro hc hch hroom
    simp [pooledClient.Close, ClientPool.put, ClientPool.isClosed, hc, hch, hroom]
  · intro hc hch hfull
    simp [pooledClient.Close, ClientPool.put, ClientPool.isClosed, hc, hch,
      not_lt.mpr hfull, Client.Close]
  · intro hc
    simp [pooledClient.Close, ClientPool.put, ClientPool.isClosed, hc, Client.Close]
  · intro pc1 p1 h
    have hpc : pc1 = ⟨.errClient .ErrClientClosed⟩ := by
      simp only [pooledClient.Close] at h
      split at h
      · simp at h
      · simp only [Except.ok.injEq, Prod.mk.injEq] at h
        exact h.1.symm
    subst hpc
    exact ⟨rfl, rfl⟩

theorem pooledClient_Close_spec_witness :
    ((openPool ⟨0, 1, 1⟩ 1 1 [] 1).closed = false ∧
      (openPool ⟨0, 1, 1⟩ 1 1 [] 1).freeList.closed = false ∧
      (openPool ⟨0, 1, 1⟩ 1 1 [] 1).freeList.buf.length <
        (openPool ⟨0, 1, 1⟩ 1 1 [] 1).freeList.cap ∧
      (pooledClient.mk (.real 7)).Close (openPool ⟨0, 1, 1⟩ 1 1 [] 1) =
        .ok (⟨.errClient .ErrClientClosed⟩, openPool ⟨0, 1, 1⟩ 1 1 [.real 7] 1)) ∧
    ((openPool ⟨1, 1, 1⟩ 1 2 [.real 0] 2).freeList.cap ≤
        (openPool ⟨1, 1, 1⟩ 1 2 [.real 0] 2).freeList.buf.length ∧
      (pooledClient.mk (.real 1)).Close (openPool ⟨1, 1, 1⟩ 1 2 [.real 0] 2) =
        .ok (⟨.errClient .ErrClientClosed⟩,
          { openPool ⟨1, 1, 1⟩ 1 1 [.real 0] 2 with closedClients := [.real 1] })) ∧
    ((shutPool ⟨0, 1, 1⟩ 1 1 1 []).closed = true ∧
      (pooledClient.mk (.real 7)).Close (shutPool ⟨0, 1, 1⟩ 1 1 1 []) =
        .ok (⟨.errClient .ErrClientClosed⟩, shutPool ⟨0, 1, 1⟩ 1 1 1 [.real 7])) ∧
    ((pooledClient.mk (.errClient .ErrClientClosed)).Close
        (openPool ⟨0, 1, 1⟩ 1 1 [.real 7] 1) =
      .ok (⟨.errClient .ErrClientClosed⟩, openPool ⟨0, 1, 1⟩ 1 1 [.real 7] 1)) :=
  ⟨⟨rfl, rfl, by decide,
      (pooledClient_Close_spec (openPool ⟨0, 1, 1⟩ 1 1 [] 1) 7).1 rfl rfl (by decide)⟩,
    ⟨by decide,
      (pooledClient_Close_spec (openPool ⟨1, 1, 1⟩ 1 2 [.real 0] 2) 1).2.1 rfl rfl
        (by decide)⟩,
    ⟨rfl, (pooledClient_Close_spec (shutPool ⟨0, 1, 1⟩ 1 1 1 []) 7).2.2.1 rfl⟩,
    ((pooledClient_Close_spec (openPool ⟨0, 1, 1⟩ 1 1 [] 1) 7).2.2.2 _ _
      ((pooledClient_Close_spec (openPool ⟨0, 1, 1⟩ 1 1 [] 1) 7).1 rfl rfl (by decide))).2⟩

/-! ## The session -/

theorem Close_wellFormed (s : IoSession) (h : s.wellFormed) : s.Close.wellFormed := by
  unfold IoSession.Close
  split_ifs with hc
  · exact h
  · obtain ⟨h1, h2, h3, h4, h5, h6, h7⟩ := h
    have hc' : s.closed = 0 := by simpa using hc
    obtain ⟨h2a, h2b⟩ := h2 hc'
    refine ⟨h1, ?_, ?_, h4, h5, h6, ?_⟩
    · intro h0; simp at h0
    · intro _
      show s.closers + 1 + s.queueCloses = 1
      omega
    · show s.connCloses + 1 = s.closers + 1 + s.queueCloses
      omega

theorem wgDone_ok (s : IoSession) (h : s.wg ≠ 0) :
    s.wgDone = .ok { s with wg := s.wg - 1 } := by
  simp [IoSession.wgDone, h]

theorem sstep_wellFormed (s : IoSession) (a : SAction) (h : s.wellFormed) :
    ∃ s1, sstep s a = .ok s1 ∧ s1.wellFormed := by
  cases a with
  | Open e =>
    refine ⟨s.Open e, rfl, ?_⟩
    have hraised : IoSession.wellFormed
        { s with addRefs := s.addRefs + 1, wg := s.wg + 3,
                 handlers := s.handlers + 1, readers := s.readers + 1,
                 writers := s.writers + 1, connected := 1,
                 onConnected := s.onConnected + 1 } := by
      obtain ⟨h1, h2, h3, h4, h5, h6, h7⟩ := h
      refine ⟨?_, h2, h3, h4, h5, h6, h7⟩
      show s.wg + 3 = s.handlers + 1 + (s.readers + 1) + (s.writers + 1)
      omega
    cases e with
    | none => exact hraised
    | some e => exact Close_wellFormed _ hraised
  | Close => exact ⟨s.Close, rfl, Close_wellFormed s h⟩
  | handlerExit pk e =>
    by_cases h0 : s.handlers = 0
    · exact ⟨s, by simp [sstep, h0], h⟩
    · obtain ⟨h1, h2, h3, h4, h5, h6, h7⟩ := h
      have hwg : s.wg ≠ 0 := by omega
      simp only [sstep, if_neg h0, IoSession.handleLoopEpilogue]
      rcases recoverErr pk e with _ | err <;> simp only [] <;>
        simp only [IoSession.wgDone, if_neg hwg] <;>
        refine ⟨_, rfl, Close_wellFormed _ ⟨?_, h2, h3, h4, h5, h6, h7⟩⟩ <;>
        show s.wg - 1 = s.handlers - 1 + s.readers + s.writers <;> omega
  | readerExit pk e =>
    by_cases h0 : s.readers = 0
    · exact ⟨s, by simp [sstep, h0], h⟩
    · obtain ⟨h1, h2, h3, h4, h5, h6, h7⟩ := h
      have hwg : s.wg ≠ 0 := by omega
      simp only [sstep, if_neg h0, IoSession.readLoopEpilogue]
      rcases recoverErr pk e with _ | err <;> simp only [] <;> (try split_ifs) <;>
        simp only [IoSession.wgDone, if_neg hwg] <;>
        refine ⟨_, rfl, Close_wellFormed _ ⟨?_, h2, h3, h4, h5, h6, h7⟩⟩ <;>
        show s.wg - 1 = s.handlers + (s.readers - 1) + s.writers <;> omega
  | writerExit pk e =>
    by_cases h0 : s.writers = 0
    · exact ⟨s, by simp [sstep, h0], h⟩
    · obtain ⟨h1, h2, h3, h4, h5, h6, h7⟩ := h
      have hwg : s.wg ≠ 0 := by omega
      simp only [sstep, if_neg h0, IoSession.writeLoopEpilogue]
      rcases recoverErr pk e with _ | err <;> simp only [] <;> (try split_ifs) <;>
        simp only [IoSession.wgDone, if_neg hwg] <;>
        refine ⟨_, rfl, Close_wellFormed _ ⟨?_, h2, h3, h4, h5, h6, h7⟩⟩ <;>
        show s.wg - 1 = s.handlers + s.readers + (s.writers - 1) <;> omega
  | closer =>
    by_cases h0 : s.closers = 0
    · exact ⟨s, by simp [sstep, h0], h⟩
    · obtain ⟨h1, h2, h3, h4, h5, h6, h7⟩ := h
      have hcl : s.closed ≠ 0 := fun hz => h0 (h2 hz).1
      have hone := h3 hcl
      have hq : s.queueCloses = 0 := by omega
      obtain ⟨hsq, hrq⟩ := h6 hq
      simp only [sstep, if_neg h0, IoSession.closeWait]
      by_cases hw : s.wg = 0
      · rw [if_neg (fun hne => hne hw), if_neg (by simp [hsq]), if_neg (by simp [hrq])]
        refine ⟨_, rfl, ?_, ?_, ?_, ?_, ?_, ?_, ?_⟩
        · show s.wg = s.handlers + s.readers + s.writers
          exact h1
        · intro hz; exact absurd hz hcl
        · intro _
          show s.closers - 1 + (s.queueCloses + 1) = 1
          omega
        · show s.onDisconnected + 1 = s.queueCloses + 1
          omega
        · show s.decRefs + 1 = s.queueCloses + 1
          omega
        · intro hz
          have : s.queueCloses + 1 = 0 := hz
          omega
        · show s.connCloses = s.closers - 1 + (s.queueCloses + 1)
          omega
      · rw [if_pos hw]
        exact ⟨s, rfl, h1, h2, h3, h4, h5, h6, h7⟩

theorem srun_wellFormed : ∀ (acts : List SAction) (s : IoSession), s.wellFormed →
    ∃ s1, srun s acts = .ok s1 ∧ s1.wellFormed := by
  intro acts
  induction acts with
  | nil => intro s h; exact ⟨s, rfl, h⟩
  | cons a rest ih =>
    intro s h
    obtain ⟨s2, hstep, h2⟩ := sstep_wellFormed s a h
    obtain ⟨s1, hrun, h1⟩ := ih s2 h2
    exact ⟨s1, by simp only [srun, hstep, hrun], h1⟩

theorem NewIoSession_wellFormed (parentDone : Bool) (sq rq : Int) (s0 : IoSession)
    (h : NewIoSession parentDone sq rq = .ok s0) : s0.wellFormed := by
  unfold NewIoSession at h
  split_ifs at h
  simp only [Except.ok.injEq] at h
  subst h
  exact ⟨rfl, fun _ => ⟨rfl, rfl⟩, fun hc => absurd rfl hc, rfl, rfl, fun _ => ⟨rfl, rfl⟩, rfl⟩

/-- On a well-formed session whose barrier is at zero, the goroutine spawned by `Close`
performs the teardown: it closes both queues and calls `OnDisconnected` and `DecRef`, each
for the first and only time. -/
theorem closer_tears_down (s : IoSession) (h : s.wellFormed) (h0 : s.closers ≠ 0)
    (hw : s.wg = 0) :
    ∃ s1, sstep s .closer = .ok s1 ∧ s1.closers = 0 ∧ s1.queueCloses = 1 ∧
      s1.onDisconnected = 1 ∧ s1.decRefs = 1 ∧ s1.connCloses = 1 ∧
      s1.sendQ.closed = true ∧ s1.recvQ.closed = true ∧
      s1.sendQ.buf = s.sendQ.buf ∧ s1.recvQ.buf = s.recvQ.buf := by
  obtain ⟨h1, h2, h3, h4, h5, h6, h7⟩ := h
  have hcl : s.closed ≠ 0 := fun hz => h0 (h2 hz).1
  have hone := h3 hcl
  have hq : s.queueCloses = 0 := by omega
  obtain ⟨hsq, hrq⟩ := h6 hq
  simp only [sstep, if_neg h0, IoSession.closeWait]
  rw [if_neg (fun hne => hne hw), if_neg (by simp [hsq]), if_neg (by simp [hrq])]
  refine ⟨_, rfl, ?_, ?_, ?_, ?_, ?_, rfl, rfl, rfl, rfl⟩
  · show s.closers - 1 = 0
    omega
  · show s.queueCloses + 1 = 1
    omega
  · show s.onDisconnected + 1 = 1
    omega
  · show s.decRefs + 1 = 1
    omega
  · show s.connCloses = 1
    omega

/-- C7 (as stated) fails: on a freshly constructed session a second `Open` raises the task
barrier from 3 to 6, starts a second handler, reader and writer, and calls `AddRef` and
`OnConnected` a second time. -/
theorem Open_twice_repeats :
    ∃ s0, NewIoSession false 16 16 = .ok s0 ∧
      (s0.Open none).wg = 3 ∧ ((s0.Open none).Open none).wg = 6 ∧
      ((s0.Open none).Open none).handlers = 2 ∧ ((s0.Open none).Open none).readers = 2 ∧
      ((s0.Open none).Open none).writers = 2 ∧
      (s0.Open none).addRefs = 1 ∧ ((s0.Open none).Open none).addRefs = 2 ∧
      (s0.Open none).onConnected = 1 ∧ ((s0.Open none).Open none).onConnected = 2 ∧
      (s0.Open none).Open none ≠ s0.Open none :=
  ⟨_, rfl, rfl, rfl, rfl, rfl, rfl, rfl, rfl, rfl, rfl, by decide⟩

/-- C7 (amended): `Open` is not guarded; every call, whatever the state of the session and
whatever `OnConnected` answers, raises the task barrier by 3, starts one more handler, reader
and writer, calls `AddRef` once and invokes `OnConnected` once. -/
theorem Open_effect (s : IoSession) (e : Option Err) :
    (s.Open e).wg = s.wg + 3 ∧
    (s.Open e).handlers = s.handlers + 1 ∧ (s.Open e).readers = s.readers + 1 ∧
    (s.Open e).writers = s.writers + 1 ∧
    (s.Open e).addRefs = s.addRefs + 1 ∧ (s.Open e).onConnected = s.onConnected + 1 := by
  cases e with
  | none => exact ⟨rfl, rfl, rfl, rfl, rfl, rfl⟩
  | some err =>
    simp only [IoSession.Open, IoSession.Close]
    split_ifs <;> exact ⟨rfl, rfl, rfl, rfl, rfl, rfl⟩

/-- C8: `Close` is idempotent, and only the first call tears the session down. A call on a
session whose `closed` word is clear sets it, clears `connected`, cancels the context, closes
the connection once and spawns the goroutine that waits for the tasks; a call on a session
whose `closed` word is already set returns the state unchanged, so `Close` after `Close`
changes nothing. In every run of a session built by `NewIoSession` (any sequence of `Open`
and `Close` calls, task exits with any error or panic, and completions of the goroutine
spawned by `Close`) nothing panics; that goroutine was spawned exactly once if `closed` is set
and never otherwise, the connection was closed as often; the queues are closed at most once,
and `OnDisconnected` and `DecRef` are each invoked exactly as often as the queues were
closed, hence at most once; and once the barrier is at zero the spawned goroutine closes both
queues and invokes `OnDisconnected` and `DecRef`, each for the first and only time. -/
theorem Close_idempotent :
    (∀ s : IoSession, s.closed ≠ 0 → s.Close = s) ∧
    (∀ s : IoSession, s.Close.Close = s.Close) ∧
    (∀ (parentDone : Bool) (sq rq : Int) (s0 : IoSession) (acts : List SAction),
      NewIoSession parentDone sq rq = .ok s0 →
      ∃ s, srun s0 acts = .ok s ∧ s.closers + s.queueCloses ≤ 1 ∧ s.queueCloses ≤ 1 ∧
        s.onDisconnected ≤ 1 ∧ s.decRefs ≤ 1 ∧
        (s.closed = 0 → s.closers = 0 ∧ s.queueCloses = 0 ∧ s.connCloses = 0) ∧
        (s.closed ≠ 0 → s.closers + s.queueCloses = 1 ∧ s.connCloses = 1) ∧
        s.onDisconnected = s.queueCloses ∧ s.decRefs = s.queueCloses ∧
        (s.closers ≠ 0 → s.wg = 0 →
          ∃ s1, sstep s .closer = .ok s1 ∧ s1.closers = 0 ∧ s1.queueCloses = 1 ∧
            s1.onDisconnected = 1 ∧ s1.decRefs = 1 ∧ s1.connCloses = 1 ∧
            s1.sendQ.closed = true ∧ s1.recvQ.closed = true ∧
            s1.sendQ.buf = s.sendQ.buf ∧ s1.recvQ.buf = s.recvQ.buf)) ∧
    (∀ s : IoSession, s.closed = 0 →
      s.Close.closed = 1 ∧ s.Close.connected = 0 ∧ s.Close.ctxDone = true ∧
      s.Close.connCloses = s.connCloses + 1 ∧ s.Close.closers = s.closers + 1 ∧
      s.Close.wg = s.wg ∧ s.Close.sendQ = s.sendQ ∧ s.Close.recvQ = s.recvQ ∧
      s.Close.queueCloses = s.queueCloses ∧ s.Close.onDisconnected = s.onDisconnected ∧
      s.Close.decRefs = s.decRefs) := by
  refine ⟨?_, ?_, ?_, ?_⟩
  · intro s h
    simp [IoSession.Close, h]
  · intro s
    by_cases h : s.closed = 0
    · simp [IoSession.Close, h]
    · simp [IoSession.Close, h]
  · intro parentDone sq rq s0 acts h0
    obtain ⟨s, hrun, hwf⟩ :=
      srun_wellFormed acts s0 (NewIoSession_wellFormed parentDone sq rq s0 h0)
    have hwf1 := hwf
    obtain ⟨h1, h2, h3, h4, h5, h6, h7⟩ := hwf1
    have hb : s.closers + s.queueCloses ≤ 1 := by
      by_cases hc : s.closed = 0
      · have := h2 hc; omega
      · have := h3 hc; omega
    refine ⟨s, hrun, hb, by omega, by omega, by omega, ?_, ?_, h4, h5, ?_⟩
    · intro hc
      have := h2 hc
      exact ⟨this.1, this.2, by omega⟩
    · intro hc
      have := h3 hc
      exact ⟨this, by omega⟩
    · intro hcl hw
      exact closer_tears_down s hwf hcl hw
  · intro s h
    simp [IoSession.Close, h]

theorem Close_idempotent_witness :
    (tornDownSession.closed ≠ 0 ∧ tornDownSession.Close = tornDownSession) ∧
    ((openSession 0 0 [] [] 0).closed = 0 ∧
      (openSession 0 0 [] [] 0).Close.closed = 1 ∧
      (openSession 0 0 [] [] 0).Close.ctxDone = true ∧
      (openSession 0 0 [] [] 0).Close.connCloses = 1 ∧
      (openSession 0 0 [] [] 0).Close.closers = 1) ∧
    (∃ s0, NewIoSession false 16 16 = .ok s0 ∧
      srun s0 [.Open none, .Close, .handlerExit false none, .Close,
          .readerExit false (some .EOF), .writerExit true none, .closer, .Close, .closer]
          = .ok tornDownSession) ∧
    tornDownSession.closers = 0 ∧ tornDownSession.queueCloses = 1 ∧
    tornDownSession.onDisconnected = 1 ∧ tornDownSession.decRefs = 1 ∧
    tornDownSession.connCloses = 1 ∧
    (∃ s0 s, NewIoSession false 16 16 = .ok s0 ∧
      srun s0 [.Open none, .Close, .handlerExit false none, .readerExit false none,
          .writerExit false none] = .ok s ∧
      s.closers = 1 ∧ s.wg = 0 ∧ s.queueCloses = 0 ∧ s.onDisconnected = 0 ∧
      ∃ s1, sstep s .closer = .ok s1 ∧ s1.closers = 0 ∧ s1.queueCloses = 1 ∧
        s1.onDisconnected = 1 ∧ s1.decRefs = 1 ∧ s1.connCloses = 1 ∧
        s1.sendQ.closed = true ∧ s1.recvQ.closed = true) := by
  refine ⟨⟨by decide, Close_idempotent.1 tornDownSession (by decide)⟩, ?_, ⟨_, rfl, rfl⟩,
    rfl, rfl, rfl, rfl, rfl, ?_⟩
  · have h := Close_idempotent.2.2.2 (openSession 0 0 [] [] 0) rfl
    exact ⟨rfl, h.1, h.2.2.1, h.2.2.2.1, h.2.2.2.2.1⟩
  · obtain ⟨s, hrun, -, -, -, -, -, -, -, -, hdown⟩ :=
      Close_idempotent.2.2.1 false 16 16 _
        [.Open none, .Close, .handlerExit false none, .readerExit false none,
          .writerExit false none] rfl
    have hs : s = { tornDownSession with
        sendQ := { buf := [], cap := 16, closed := false },
        recvQ := { buf := [], cap := 16, closed := false },
        closers := 1, decRefs := 0, onDisconnected := 0, queueCloses := 0 } := by
      have h2 : (Except.ok s : Except Panic IoSession) = Except.ok _ := hrun.symm.trans rfl
      exact Except.ok.inj h2
    subst hs
    obtain ⟨s1, h1, h2, h3, h4, h5, h6, h7, h8, -⟩ := hdown (by decide) rfl
    exact ⟨_, _, rfl, rfl, rfl, rfl, rfl, rfl, s1, h1, h2, h3, h4, h5, h6, h7, h8⟩

/-- C9 (code evaluated at the failing input): a session is constructed, opened and closed,
its three tasks exit and the goroutine spawned by `Close` closes both queues. `Send` with a
live caller context then has two ready cases, the session context and the send on the closed
queue: resolved to the first it returns `ErrSessionClosed`, resolved to the second it panics
with a send on a closed channel. -/
theorem Send_after_Close_panics :
    (∃ s0, NewIoSession false 16 16 = .ok s0 ∧
      srun s0 [.Open none, .Close, .handlerExit false none, .readerExit false none,
        .writerExit false none, .closer] = .ok tornDownSession) ∧
    tornDownSession.ctxDone = true ∧ tornDownSession.sendQ.closed = true ∧
    tornDownSession.recvQ.closed = true ∧
    (∀ m, tornDownSession.sendReady false 0 false = [.sessionDone, .send] ∧
      tornDownSession.SendWithTimeout false m 0 false 0 =
        .ret (some .ErrSessionClosed) tornDownSession ∧
      tornDownSession.SendWithTimeout false m 0 false 1 = .panic .sendOnClosedChannel ∧
      tornDownSession.Send false m 1 = .panic .sendOnClosedChannel) :=
  ⟨⟨_, rfl, rfl⟩, rfl, rfl, rfl, fun _ => ⟨rfl, rfl, rfl, rfl⟩⟩

/-- C10 (code evaluated at the failing input): on an open session whose reader has seen one
read timeout (`idleCount = 1`), a `Decode` that returns `(nil, nil)` makes the reader reset
`idleCount` to 0, raise `readMsgCount` to 1 and push the nil message into the recv-queue; the
handler then pulls it and invokes `OnMessage` with the nil message. -/
theorem readLoop_pushes_nil :
    (∃ s0, NewIoSession false 16 16 = .ok s0 ∧ s0.Open none = openSession 0 0 [] [] 0) ∧
    (∀ pick, (openSession 0 0 [] [] 0).readLoopIter (.nil, some .netTimeout) none pick =
      .ret .next (openSession 1 0 [] [] 1)) ∧
    (∀ pick onIdle, (openSession 1 0 [] [] 1).readLoopIter (.nil, none) onIdle pick =
      .ret .next (openSession 0 1 [.nil] [] 1)) ∧
    (∀ pick, (openSession 0 1 [.nil] [] 1).handleLoopIter none pick =
      .ret .next (openSession 0 1 [] [.nil] 1)) := by
  refine ⟨⟨_, rfl, rfl⟩, fun _ => rfl, ?_, ?_⟩
  · intro pick onIdle
    simp [IoSession.readLoopIter, IoSession.pushReady, Chan.canSend, selectReady,
      Nat.mod_one, openSession]
  · intro pick
    simp [IoSession.handleLoopIter, IoSession.pullReady, Chan.canRecv, selectReady,
      Nat.mod_one, Chan.recv, openSession]

/-! ## The client engine -/

theorem get?_set_same {α : Type} (l : List α) (i : Nat) (x y : α)
    (h : l.get? i = some x) : (l.set i y).get? i = some y := by
  have hi : i < l.length := by
    by_contra hn
    rw [List.get?_eq_none.mpr (not_lt.mp hn)] at h
    exact absurd h (by simp)
  simp [List.get?_eq_getElem?, hi]

theorem get?_set_other {α : Type} (l : List α) (i j : Nat) (y : α) (h : i ≠ j) :
    (l.set i y).get? j = l.get? j := by
  simp [List.get?_eq_getElem?, h]

theorem tableGet_delete_self (m : List (Nat × Nat)) (id : Nat) :
    tableGet (tableDelete m id) id = none := by
  induction m with
  | nil => rfl
  | cons e m ih =>
    obtain ⟨a, b⟩ := e
    by_cases h : a = id
    · simpa [tableDelete, h] using ih
    · simpa [tableDelete, tableGet, h] using ih

theorem tableGet_delete_other (m : List (Nat × Nat)) (id k : Nat) (hk : k ≠ id) :
    tableGet (tableDelete m id) k = tableGet m k := by
  induction m with
  | nil => rfl
  | cons e m ih =>
    obtain ⟨a, b⟩ := e
    by_cases h : a = id
    · have hka : ¬ a = k := by rw [h]; exact fun hh => hk hh.symm
      rw [tableDelete, if_pos h, tableGet, if_neg hka]
      exact ih
    · rw [tableDelete, if_neg h]
      by_cases hka : a = k
      · rw [tableGet, if_pos hka, tableGet, if_pos hka]
      · rw [tableGet, if_neg hka, tableGet, if_neg hka]
        exact ih

theorem tableDelete_absent (m : List (Nat × Nat)) (id : Nat) (h : tableGet m id = none) :
    tableDelete m id = m := by
  induction m with
  | nil => rfl
  | cons e m ih =>
    obtain ⟨a, b⟩ := e
    by_cases ha : a = id
    · simp [tableGet, ha] at h
    · have h2 : tableGet m id = none := by simpa [tableGet, ha] using h
      simp [tableDelete, ha, ih h2]

theorem tableGet_mem (m : List (Nat × Nat)) (id tk : Nat) (h : tableGet m id = some tk) :
    (id, tk) ∈ m := by
  induction m with
  | nil => simp [tableGet] at h
  | cons e m ih =>
    obtain ⟨a, b⟩ := e
    by_cases ha : a = id
    · simp [tableGet, ha] at h
      simp [ha, h]
    · have h2 : tableGet m id = some tk := by simpa [tableGet, ha] using h
      exact List.mem_cons_of_mem _ (ih h2)

theorem tableDelete_single (id tk : Nat) : tableDelete [(id, tk)] id = [] := by
  simp [tableDelete]

/-- C11: `OnMessage` on a well-formed correlation table. If the message has an `Id()` (it is
a `Response`) and the table has an entry for it, that entry is removed, the message is put on
the reply channel of its record without blocking, every other entry and record is unchanged,
the user handler is not called and nil is returned. Otherwise (no entry for the id, or no
`Id()`) the table is unchanged and the message is forwarded to the user handler, whose result
is returned (nil when no user handler is set). -/
theorem OnMessage_correlates (c : ClientBase) (msg : Message) (user : Option Err)
    (hok : c.tableOk) :
    (∀ id payload tk, msg = .withId id payload → tableGet c.pendingMap id = some tk →
      ∃ r, c.calls.get? tk = some r ∧
        c.OnMessage msg user =
          .ret none { c with pendingMap := tableDelete c.pendingMap id,
                             calls := c.calls.set tk (r.reply msg) } ∧
        (r.reply msg).replyCh.buf = [msg] ∧
        tableGet (tableDelete c.pendingMap id) id = none ∧
        (∀ k, k ≠ id → tableGet (tableDelete c.pendingMap id) k = tableGet c.pendingMap k) ∧
        (∀ j, j ≠ tk → (c.calls.set tk (r.reply msg)).get? j = c.calls.get? j)) ∧
    ((∀ id payload, msg = .withId id payload → tableGet c.pendingMap id = none) →
      c.OnMessage msg user =
        .ret (if c.handler then user else none)
          (if c.handler then { c with userMessages := c.userMessages ++ [msg] } else c)) := by
  refine ⟨?_, ?_⟩
  · intro id payload tk hmsg hget
    obtain ⟨r, hr, -, hrep⟩ := hok.2 (id, tk) (tableGet_mem _ _ _ hget)
    refine ⟨r, hr, ?_, ?_, tableGet_delete_self _ _, fun k hk => tableGet_delete_other _ _ _ hk,
      fun j hj => get?_set_other _ _ _ _ (fun h => hj h.symm)⟩
    · subst hmsg
      simp only [ClientBase.OnMessage, hget]
      simp only [hr, hrep]
      simp
    · simp [pendingRequest.reply, hrep]
  · intro habs
    cases msg with
    | nil => simp only [ClientBase.OnMessage, ClientBase.forward]; split_ifs <;> rfl
    | plain p => simp only [ClientBase.OnMessage, ClientBase.forward]; split_ifs <;> rfl
    | withId id payload =>
      have hnone := habs id payload rfl
      simp only [ClientBase.OnMessage, hnone, tableDelete_absent _ _ hnone,
        ClientBase.forward]
      split_ifs <;> rfl

theorem OnMessage_correlates_witness :
    (engine none none [(2, 1), (1, 0)] [freshCall 1, freshCall 2]).tableOk ∧
    tableGet [(2, 1), (1, 0)] 1 = some 0 ∧
    (engine none none [(2, 1), (1, 0)] [freshCall 1, freshCall 2]).OnMessage
        (.withId 1 7) none =
      .ret none
        (engine none none [(2, 1)] [(freshCall 1).reply (.withId 1 7), freshCall 2]) := by
  have hok : (engine none none [(2, 1), (1, 0)] [freshCall 1, freshCall 2]).tableOk :=
    ⟨by decide, by
      intro e he
      simp only [engine, List.mem_cons, List.mem_singleton, List.not_mem_nil, or_false] at he
      rcases he with rfl | rfl
      · exact ⟨freshCall 2, rfl, rfl, rfl⟩
      · exact ⟨freshCall 1, rfl, rfl, rfl⟩⟩
  obtain ⟨r, hr, hm, -⟩ := (OnMessage_correlates _ (.withId 1 7) none hok).1 1 7 0 rfl rfl
  have hr1 : r = freshCall 1 := by
    have : some (freshCall 1) = some r := hr
    exact (Option.some.inj this).symm
  subst hr1
  exact ⟨hok, rfl, hm⟩

theorem settleLoop_ok (err : Err) : ∀ (es : List (Nat × Nat)) (c : ClientBase),
    (es.map Prod.snd).Nodup →
    (∀ e ∈ es, ∃ r, c.calls.get? e.2 = some r ∧
      r.errorCh = { buf := [], cap := 1, closed := false }) →
    ∃ calls1, settleLoop err es c = .ret () { c with calls := calls1 } ∧
      (∀ e ∈ es, ∃ r, c.calls.get? e.2 = some r ∧ calls1.get? e.2 = some (r.fail err)) ∧
      (∀ tk, tk ∉ es.map Prod.snd → calls1.get? tk = c.calls.get? tk) := by
  intro es
  induction es with
  | nil =>
    intro c _ _
    exact ⟨c.calls, rfl, by simp, fun _ _ => rfl⟩
  | cons e rest ih =>
    intro c hnd hrec
    obtain ⟨r, hr, hch⟩ := hrec e (List.mem_cons_self _ _)
    have hnd' : (rest.map Prod.snd).Nodup := (List.nodup_cons.mp hnd).2
    have hfresh : e.2 ∉ rest.map Prod.snd := (List.nodup_cons.mp hnd).1
    have hne : ∀ e1 ∈ rest, e.2 ≠ e1.2 := by
      intro e1 h1 heq
      exact hfresh (List.mem_map.mpr ⟨e1, h1, heq.symm⟩)
    obtain ⟨calls1, hrun, hset, hkeep⟩ := ih
      { c with calls := c.calls.set e.2 (r.fail err) } hnd' (by
        intro e1 h1
        obtain ⟨r1, hr1, hch1⟩ := hrec e1 (List.mem_cons_of_mem _ h1)
        exact ⟨r1, by
          show (c.calls.set e.2 (r.fail err)).get? e1.2 = some r1
          rw [get?_set_other _ _ _ _ (hne e1 h1)]; exact hr1, hch1⟩)
    refine ⟨calls1, ?_, ?_, ?_⟩
    · simp only [settleLoop, hr, hch]
      exact hrun
    · intro e1 h1
      rcases List.mem_cons.mp h1 with rfl | h1
      · refine ⟨r, hr, ?_⟩
        rw [hkeep _ hfresh]
        exact get?_set_same _ _ _ _ hr
      · obtain ⟨r1, hr1, hc1⟩ := hset e1 h1
        refine ⟨r1, ?_, hc1⟩
        have : (c.calls.set e.2 (r.fail err)).get? e1.2 = some r1 := hr1
        rw [get?_set_other _ _ _ _ (hne e1 h1)] at this
        exact this
    · intro tk htk
      have h1 : tk ∉ rest.map Prod.snd := fun h => htk (List.mem_cons_of_mem _ h)
      have h2 : e.2 ≠ tk := fun h => htk (by simp [h])
      rw [hkeep tk h1]
      exact get?_set_other _ _ _ _ h2

/-- What `OnDisconnected` does on an open engine with a well-formed table. -/
theorem OnDisconnected_open (c : ClientBase) (hok : c.tableOk) (hc : c.closed = false) :
    ∃ calls1,
      c.OnDisconnected = .ret ()
        { c with pendingMap := [], calls := calls1,
                 userDisconnected := c.userDisconnected + (if c.handler then 1 else 0) } ∧
      (∀ e ∈ c.pendingMap, ∃ r, c.calls.get? e.2 = some r ∧
        calls1.get? e.2 = some (r.fail (c.sessionError.getD .ErrClientClosed))) ∧
      (∀ tk, tk ∉ c.pendingMap.map Prod.snd → calls1.get? tk = c.calls.get? tk) := by
  obtain ⟨calls1, hrun, hset, hkeep⟩ :=
    settleLoop_ok (c.sessionError.getD .ErrClientClosed) c.pendingMap
      { c with pendingMap := [] } hok.1 (by
        intro e he
        obtain ⟨r, hr, hch, -⟩ := hok.2 e he
        exact ⟨r, hr, hch⟩)
  have herr : (match c.sessionError with
      | some e => e
      | none => Err.ErrClientClosed) = c.sessionError.getD .ErrClientClosed := by
    cases c.sessionError <;> rfl
  have hrun1 : settleLoop (c.sessionError.getD .ErrClientClosed) c.pendingMap
      { c with pendingMap := [] } = .ret () { c with pendingMap := [], calls := calls1 } := hrun
  have hs : c.settlePendingRequests = .ret () { c with pendingMap := [], calls := calls1 } := by
    unfold ClientBase.settlePendingRequests
    simp only []
    rw [herr]
    exact hrun1
  refine ⟨calls1, ?_, hset, hkeep⟩
  rw [ClientBase.OnDisconnected, if_neg (by simp [ClientBase.IsClosed, hc]), hs]
  cases hh : c.handler <;> simp

/-- C12: on an open engine with a well-formed correlation table, `OnDisconnected` returns
with an empty table, has put exactly one error on the error channel of the record of every
entry (the captured session error, or `ErrClientClosed` when none was captured), has left
all other records and the reply channels as they were, and has then called the user handler
(when one is set). On a closed engine it changes nothing and calls nobody. -/
theorem OnDisconnected_settles (c : ClientBase) (hok : c.tableOk) :
    (c.closed = false →
      ∃ calls1,
        c.OnDisconnected = .ret ()
          { c with pendingMap := [], calls := calls1,
                   userDisconnected := c.userDisconnected + (if c.handler then 1 else 0) } ∧
        (∀ e ∈ c.pendingMap, ∃ r r1, c.calls.get? e.2 = some r ∧ calls1.get? e.2 = some r1 ∧
          r1.errorCh.buf = [c.sessionError.getD .ErrClientClosed] ∧
          r1.replyCh = r.replyCh ∧ r1.Request = r.Request) ∧
        (∀ tk, tk ∉ c.pendingMap.map Prod.snd → calls1.get? tk = c.calls.get? tk)) ∧
    (c.closed = true → c.OnDisconnected = .ret () c) := by
  refine ⟨?_, ?_⟩
  · intro hc
    obtain ⟨calls1, hrun, hset, hkeep⟩ := OnDisconnected_open c hok hc
    refine ⟨calls1, hrun, ?_, hkeep⟩
    intro e he
    obtain ⟨r, hr, hr1⟩ := hset e he
    obtain ⟨r0, hr0, hch, -⟩ := hok.2 e he
    have : r0 = r := Option.some.inj (hr0.symm.trans hr)
    subst this
    exact ⟨r0, _, hr, hr1, by simp [pendingRequest.fail, hch], rfl, rfl⟩
  · intro hc
    simp [ClientBase.OnDisconnected, ClientBase.IsClosed, hc]

theorem twoCalls_tableOk (s : Option IoSession) (e : Option Err) :
    (engine s e [(2, 1), (1, 0)] [freshCall 1, freshCall 2]).tableOk :=
  ⟨by show ([1, 0] : List Nat).Nodup; decide, by
    intro x hx
    simp only [engine, List.mem_cons, List.mem_singleton, List.not_mem_nil, or_false] at hx
    rcases hx with rfl | rfl
    · exact ⟨freshCall 2, rfl, rfl, rfl⟩
    · exact ⟨freshCall 1, rfl, rfl, rfl⟩⟩

theorem OnDisconnected_settles_witness :
    (engine none (some (.other 3)) [(2, 1), (1, 0)] [freshCall 1, freshCall 2]).tableOk ∧
    (engine none (some (.other 3)) [(2, 1), (1, 0)] [freshCall 1, freshCall 2]).closed = false ∧
    (engine none (some (.other 3)) [(2, 1), (1, 0)] [freshCall 1, freshCall 2]).OnDisconnected =
      .ret () (engine none (some (.other 3)) []
        [(freshCall 1).fail (.other 3), (freshCall 2).fail (.other 3)]) ∧
    (engine none none [(2, 1), (1, 0)] [freshCall 1, freshCall 2]).Close.closed = true ∧
    (engine none none [(2, 1), (1, 0)] [freshCall 1, freshCall 2]).Close.OnDisconnected =
      .ret () (engine none none [(2, 1), (1, 0)] [freshCall 1, freshCall 2]).Close :=
  ⟨twoCalls_tableOk _ _, rfl,
    ((OnDisconnected_settles _ (twoCalls_tableOk none (some (.other 3)))).1 rfl).elim
      fun _ _ => rfl,
    rfl,
    (OnDisconnected_settles (engine none none [(2, 1), (1, 0)] [freshCall 1, freshCall 2]).Close
      ⟨by decide, by
        intro x hx
        have hx' : x ∈ [((2 : Nat), (1 : Nat)), (1, 0)] := hx
        simp only [List.mem_cons, List.mem_singleton, List.not_mem_nil, or_false] at hx'
        rcases hx' with rfl | rfl
        · exact ⟨freshCall 2, rfl, rfl, rfl⟩
        · exact ⟨freshCall 1, rfl, rfl, rfl⟩⟩).2 rfl⟩

/-- The wait of a call whose record holds an error and no reply, with both contexts live and
no timer due: the error is returned. -/
theorem callWait_error (c : ClientBase) (tk id : Nat) (r : pendingRequest) (err : Err)
    (timeout wait elapsed : Int) (pick : Nat)
    (hr : c.calls.get? tk = some (r.fail err))
    (hrep : r.replyCh = { buf := [], cap := 1, closed := false })
    (herr : r.errorCh = { buf := [], cap := 1, closed := false })
    (hctx : c.ctxDone = false) (htimer : ¬ (timeout ≠ 0 ∧ wait ≤ elapsed)) :
    ∃ c2, c.callWait tk id false timeout wait elapsed pick = .ret (none, some err) c2 := by
  have hready : c.callReady (r.fail err) false timeout wait elapsed = [CallCase.error] := by
    simp [ClientBase.callReady, hctx, htimer, pendingRequest.fail, hrep, herr, Chan.canRecv]
  have hbuf : (r.fail err).errorCh.buf = [err] := by simp [pendingRequest.fail, herr]
  simp only [ClientBase.callWait, hr, hready, selectReady, List.length_singleton, Nat.mod_one,
    hbuf]
  exact ⟨_, rfl⟩

/-- C13 (as stated) fails. Two calls (ids 1 and 2) are parked on an open engine; the peer
closes the socket, so `Decode` returns `io.EOF`: the reader leaves its loop with that error,
its epilogue does not invoke `OnError` (nothing is captured), and when `OnDisconnected`
settles the table both calls return `ErrClientClosed`, which is neither
`ErrClientDisconnected` nor the transport error. -/
theorem calls_get_ErrClientClosed_on_EOF :
    (∀ pick,
      (engine (some (sendingSession [])) none [] []).CallWithTimeout 1 0 0
          ⟨false, false, none, none, false, 0, 0, 0, 0, pick⟩ =
        .blocked (engine (some (sendingSession [.withId 1 0])) none [(1, 0)] [freshCall 1])) ∧
    (∀ pick,
      (engine (some (sendingSession [.withId 1 0])) none [(1, 0)] [freshCall 1]).CallWithTimeout
          2 0 0 ⟨false, false, none, none, false, 0, 0, 0, 0, pick⟩ =
        .blocked (engine (some (sendingSession [.withId 1 0, .withId 2 0])) none
          [(2, 1), (1, 0)] [freshCall 1, freshCall 2])) ∧
    (∀ pick, (sendingSession [.withId 1 0, .withId 2 0]).readLoopIter (.nil, some .EOF) none pick =
      .ret (.exit (some .EOF)) (sendingSession [.withId 1 0, .withId 2 0])) ∧
    (∃ s1, (sendingSession [.withId 1 0, .withId 2 0]).readLoopEpilogue false (some .EOF) =
      .ok s1 ∧ s1.onErrors = [] ∧ s1.closed = 1) ∧
    (∀ s, (engine s none [(2, 1), (1, 0)] [freshCall 1, freshCall 2]).OnDisconnected =
      .ret () (engine s none []
        [(freshCall 1).fail .ErrClientClosed, (freshCall 2).fail .ErrClientClosed])) ∧
    (∀ s pick, ∃ c1,
      (engine s none [] [(freshCall 1).fail .ErrClientClosed,
          (freshCall 2).fail .ErrClientClosed]).callWait 0 1 false 0 0 0 pick =
        .ret (none, some .ErrClientClosed) c1) ∧
    (∀ s pick, ∃ c1,
      (engine s none [] [(freshCall 1).fail .ErrClientClosed,
          (freshCall 2).fail .ErrClientClosed]).callWait 1 2 false 0 0 0 pick =
        .ret (none, some .ErrClientClosed) c1) ∧
    Err.ErrClientClosed ≠ Err.ErrClientDisconnected ∧ Err.ErrClientClosed ≠ Err.EOF := by
  refine ⟨fun pick => ?_, fun pick => ?_, fun pick => rfl, ⟨_, rfl, rfl, rfl⟩, fun s => rfl,
    fun s pick => callWait_error _ 0 1 (freshCall 1) _ 0 0 0 pick rfl rfl rfl rfl (by simp),
    fun s pick => callWait_error _ 1 2 (freshCall 2) _ 0 0 0 pick rfl rfl rfl rfl (by simp),
    by decide, by decide⟩
  · simp [ClientBase.CallWithTimeout, ClientBase.IsClosed, engine, ClientBase.ensureConnected,
      ClientBase.IsConnected, ClientBase.GetSession, sendingSession, openSession,
      IoSession.IsConnected, ClientBase.register, tableSet, tableDelete,
      IoSession.SendWithTimeout, IoSession.sendReady, Chan.canSend, selectReady,
      ClientBase.callWait, ClientBase.callReady, Chan.canRecv, freshCall]
  · simp [ClientBase.CallWithTimeout, ClientBase.IsClosed, engine, ClientBase.ensureConnected,
      ClientBase.IsConnected, ClientBase.GetSession, sendingSession, openSession,
      IoSession.IsConnected, ClientBase.register, tableSet, tableDelete,
      IoSession.SendWithTimeout, IoSession.sendReady, Chan.canSend, selectReady,
      ClientBase.callWait, ClientBase.callReady, Chan.canRecv, freshCall]

/-- C13 (amended): when the session of an open engine with live contexts ends, every
outstanding call returns the last captured session error, or `ErrClientClosed` when none was
captured; and the reader's epilogue does not report `io.EOF` through `OnError`, so a plain
peer close captures nothing. -/
theorem calls_after_disconnect (c : ClientBase) (hok : c.tableOk) (hc : c.closed = false)
    (hctx : c.ctxDone = false) :
    (∃ c1, c.OnDisconnected = .ret () c1 ∧
      ∀ e ∈ c.pendingMap, ∀ (timeout wait elapsed : Int) (pick : Nat),
        ¬ (timeout ≠ 0 ∧ wait ≤ elapsed) →
        ∃ c2, c1.callWait e.2 e.1 false timeout wait elapsed pick =
          .ret (none, some (c.sessionError.getD .ErrClientClosed)) c2) ∧
    (∀ s : IoSession, s.wg ≠ 0 →
      ∃ s1, s.readLoopEpilogue false (some .EOF) = .ok s1 ∧ s1.onErrors = s.onErrors) := by
  refine ⟨?_, ?_⟩
  · obtain ⟨calls1, hrun, hset, -⟩ := OnDisconnected_open c hok hc
    refine ⟨_, hrun, ?_⟩
    intro e he timeout wait elapsed pick htimer
    obtain ⟨r, hr, hr1⟩ := hset e he
    obtain ⟨r0, hr0, herr, hrep⟩ := hok.2 e he
    have : r0 = r := Option.some.inj (hr0.symm.trans hr)
    subst this
    exact callWait_error _ e.2 e.1 r0 _ timeout wait elapsed pick hr1 hrep herr hctx htimer
  · intro s hwg
    simp only [IoSession.readLoopEpilogue, recoverErr, Bool.false_eq_true, if_false, ne_eq,
      not_true_eq_false, decide_False, Bool.and_false, IoSession.wgDone, if_neg hwg]
    refine ⟨_, rfl, ?_⟩
    simp only [IoSession.Close]
    split_ifs <;> rfl

theorem calls_after_disconnect_witness :
    (engine none none [(2, 1), (1, 0)] [freshCall 1, freshCall 2]).tableOk ∧
    (∃ c1, (engine none none [(2, 1), (1, 0)] [freshCall 1, freshCall 2]).OnDisconnected =
        .ret () c1 ∧
      ∃ c2, c1.callWait 0 1 false 0 0 0 0 = .ret (none, some .ErrClientClosed) c2) :=
  ⟨twoCalls_tableOk none none,
    (calls_after_disconnect _ (twoCalls_tableOk none none) rfl rfl).1.imp
      fun _ h => ⟨h.1, h.2 (1, 0) (by simp [engine]) 0 0 0 0 (by simp)⟩⟩

/-- C14: when the wait of `CallWithTimeout` (timeout positive, both contexts live, no reply
and no error on the record) is resolved with the timer due, the call returns a nil response
and `ErrTimeout`, and the only change to the engine is that the entry for the request id is
deleted from the correlation table: looking that id up finds nothing, every other id is
looked up as before, and a table that held only this entry is empty. -/
theorem CallWithTimeout_timer_fires (c : ClientBase) (tk id : Nat) (r : pendingRequest)
    (timeout wait elapsed : Int) (pick : Nat)
    (hr : c.calls.get? tk = some r) (hctx : c.ctxDone = false)
    (hrep : r.replyCh.canRecv = false) (herr : r.errorCh.canRecv = false)
    (ht : 0 < timeout) (hfire : wait ≤ elapsed) :
    c.callWait tk id false timeout wait elapsed pick =
      .ret (none, some .ErrTimeout) { c with pendingMap := tableDelete c.pendingMap id } ∧
    tableGet (tableDelete c.pendingMap id) id = none ∧
    (∀ k, k ≠ id → tableGet (tableDelete c.pendingMap id) k = tableGet c.pendingMap k) ∧
    (∀ tk1, c.pendingMap = [(id, tk1)] → tableDelete c.pendingMap id = []) := by
  have hne : timeout ≠ 0 := ne_of_gt ht
  have hready : c.callReady r false timeout wait elapsed = [CallCase.timer] := by
    simp [ClientBase.callReady, hctx, hrep, herr, hne, hfire]
  refine ⟨?_, tableGet_delete_self _ _, fun k hk => tableGet_delete_other _ _ _ hk, ?_⟩
  · simp only [ClientBase.callWait, hr, hready, selectReady, List.length_singleton, Nat.mod_one]
    rfl
  · intro tk1 h
    rw [h]
    exact tableDelete_single id tk1

theorem CallWithTimeout_timer_fires_witness :
    (0 : Int) < 50 * Millisecond ∧ (50 * Millisecond : Int) ≤ 50 * Millisecond ∧
    (engine (some (sendingSession [.withId 42 0])) none [(42, 0)] [freshCall 42]).callWait
        0 42 false (50 * Millisecond) (50 * Millisecond) (50 * Millisecond) 0 =
      .ret (none, some .ErrTimeout)
        (engine (some (sendingSession [.withId 42 0])) none [] [freshCall 42]) :=
  ⟨by decide, le_refl _,
    (CallWithTimeout_timer_fires
      (engine (some (sendingSession [.withId 42 0])) none [(42, 0)] [freshCall 42])
      0 42 (freshCall 42) (50 * Millisecond) (50 * Millisecond) (50 * Millisecond) 0
      rfl rfl rfl rfl (by decide) (le_refl _)).1⟩

/-- C15 (code evaluated at the failing input): on a connected engine with an empty table,
`CallWithTimeout` for request 42 registers its record, sends, and waits. When the caller's
context is cancelled during the wait the call returns the context error and the table still
holds the entry for 42; when the engine context is cancelled while the call is parked it
returns `ErrClientClosed` and the entry is still there. Only the timer case deletes the
entry. -/
theorem cancelled_call_leaves_entry :
    (∀ pick,
      (engine (some (sendingSession [])) none [] []).CallWithTimeout 42 0 0
          ⟨false, true, none, none, false, 0, 0, 0, 0, pick⟩ =
        .ret (none, some .ctxErr)
          (engine (some (sendingSession [.withId 42 0])) none [(42, 0)] [freshCall 42])) ∧
    tableGet (engine (some (sendingSession [.withId 42 0])) none [(42, 0)]
      [freshCall 42]).pendingMap 42 = some 0 ∧
    (∀ pick,
      (engine (some (sendingSession [])) none [] []).CallWithTimeout 42 0 0
          ⟨false, false, none, none, false, 0, 0, 0, 0, pick⟩ =
        .blocked
          (engine (some (sendingSession [.withId 42 0])) none [(42, 0)] [freshCall 42])) ∧
    (∀ pick,
      (cancelledEngine (some (sendingSession [.withId 42 0])) [(42, 0)]
          [freshCall 42]).callWait 0 42 false 0 0 0 pick =
        .ret (none, some .ErrClientClosed)
          (cancelledEngine (some (sendingSession [.withId 42 0])) [(42, 0)] [freshCall 42])) ∧
    tableGet (cancelledEngine (some (sendingSession [.withId 42 0])) [(42, 0)]
      [freshCall 42]).pendingMap 42 = some 0 := by
  refine ⟨fun pick => ?_, rfl, fun pick => ?_, fun pick => ?_, rfl⟩
  · simp [ClientBase.CallWithTimeout, ClientBase.IsClosed, engine, ClientBase.ensureConnected,
      ClientBase.IsConnected, ClientBase.GetSession, sendingSession, openSession,
      IoSession.IsConnected, ClientBase.register, tableSet, tableDelete,
      IoSession.SendWithTimeout, IoSession.sendReady, Chan.canSend, selectReady,
      ClientBase.callWait, ClientBase.callReady, Chan.canRecv, freshCall, Nat.mod_one]
  · simp [ClientBase.CallWithTimeout, ClientBase.IsClosed, engine, ClientBase.ensureConnected,
      ClientBase.IsConnected, ClientBase.GetSession, sendingSession, openSession,
      IoSession.IsConnected, ClientBase.register, tableSet, tableDelete,
      IoSession.SendWithTimeout, IoSession.sendReady, Chan.canSend, selectReady,
      ClientBase.callWait, ClientBase.callReady, Chan.canRecv, freshCall, Nat.mod_one]
  · simp [ClientBase.callWait, ClientBase.callReady, cancelledEngine, engine, freshCall,
      Chan.canRecv, selectReady, Nat.mod_one]

/-- C16 (code evaluated at the failing input): `CallWithTimeout` with a timeout of 50 ms on a
connected engine whose peer stays silent. The send takes 1 ms (`tBegin = 0`, `tSent` = 1 ms),
so the timer is armed with 1 ms: resolved at 2 ms after the start the call already returns
`ErrTimeout`. With a send that takes 60 ms the timer is armed with 60 ms, and at 110 ms after
the start, 50 ms after the send, the call is still parked. -/
theorem timer_armed_with_send_time :
    (∀ pick,
      (engine (some (sendingSession [])) none [] []).CallWithTimeout 42 0 (50 * Millisecond)
          ⟨false, false, none, none, false, 0, 0, 1 * Millisecond, 2 * Millisecond, pick⟩ =
        .ret (none, some .ErrTimeout)
          (engine (some (sendingSession [.withId 42 0])) none [] [freshCall 42])) ∧
    (2 * Millisecond - 0 < 50 * Millisecond) ∧
    (∀ pick,
      (engine (some (sendingSession [])) none [] []).CallWithTimeout 42 0 (50 * Millisecond)
          ⟨false, false, none, none, false, 0, 0, 60 * Millisecond, 110 * Millisecond, pick⟩ =
        .blocked
          (engine (some (sendingSession [.withId 42 0])) none [(42, 0)] [freshCall 42])) := by
  refine ⟨fun pick => ?_, by decide, fun pick => ?_⟩
  · simp [ClientBase.CallWithTimeout, ClientBase.IsClosed, engine, ClientBase.ensureConnected,
      ClientBase.IsConnected, ClientBase.GetSession, sendingSession, openSession,
      IoSession.IsConnected, ClientBase.register, tableSet, tableDelete,
      IoSession.SendWithTimeout, IoSession.sendReady, Chan.canSend, selectReady,
      ClientBase.callWait, ClientBase.callReady, Chan.canRecv, freshCall, Millisecond,
      Nat.mod_one]
  · simp [ClientBase.CallWithTimeout, ClientBase.IsClosed, engine, ClientBase.ensureConnected,
      ClientBase.IsConnected, ClientBase.GetSession, sendingSession, openSession,
      IoSession.IsConnected, ClientBase.register, tableSet, tableDelete,
      IoSession.SendWithTimeout, IoSession.sendReady, Chan.canSend, selectReady,
      ClientBase.callWait, ClientBase.callReady, Chan.canRecv, freshCall, Millisecond,
      Nat.mod_one]

/-! ## The accept loop -/

theorem wrapInt64_small (x : Int) (h0 : 0 ≤ x) (h1 : x < 2 ^ 63) : wrapInt64 x = x := by
  unfold wrapInt64
  rw [Int.emod_eq_of_lt (by omega) (by omega)]
  omega

theorem backoff_bounds (n : Nat) : 5 * Millisecond ≤ backoff n ∧ backoff n ≤ 1 * Second := by
  have hpow : (1 : Int) ≤ 2 ^ (n - 1) := one_le_pow₀ (by norm_num)
  refine ⟨?_, min_le_right _ _⟩
  unfold backoff
  refine le_min ?_ (by simp [Second, Millisecond])
  have hm : (0 : Int) ≤ 5 * Millisecond := by simp [Millisecond]
  nlinarith

theorem nextDelay_zero : nextDelay 0 = backoff 1 := by
  decide

theorem nextDelay_backoff (n : Nat) (hn : 1 ≤ n) : nextDelay (backoff n) = backoff (n + 1) := by
  obtain ⟨hlo, hhi⟩ := backoff_bounds n
  have hne : backoff n ≠ 0 := by
    have : (0 : Int) < 5 * Millisecond := by simp [Millisecond]
    omega
  have hsec : (1 : Int) * Second = 1000000000 := by simp [Second, Millisecond]
  have hms : (5 : Int) * Millisecond = 5000000 := by simp [Millisecond]
  have hwrap : wrapInt64 (backoff n * 2) = backoff n * 2 :=
    wrapInt64_small _ (by omega) (by rw [hsec] at hhi; norm_num; omega)
  have hpow : (5 * Millisecond * 2 ^ (n + 1 - 1) : Int) = 2 * (5 * Millisecond * 2 ^ (n - 1)) := by
    obtain ⟨k, rfl⟩ : ∃ k, n = k + 1 := ⟨n - 1, by omega⟩
    simp only [Nat.add_sub_cancel]
    rw [pow_succ]
    ring
  unfold nextDelay
  simp only [if_neg hne, hwrap]
  unfold backoff at hlo hhi ⊢
  rw [hpow]
  generalize (5 * Millisecond * 2 ^ (n - 1) : Int) = p at hlo hhi ⊢
  rw [hsec] at hhi ⊢
  rw [hms] at hlo
  simp only [min_def] at hlo hhi ⊢
  split_ifs at hlo hhi ⊢ <;> omega

/-- The loop of `Serve` over a run of temporary errors, entered after `m` consecutive ones. -/
theorem Serve_temporaries (errs : List Err) : ∀ (st : ServeState) (m : Nat),
    st.ctxDone = false → st.tempDelay = (if m = 0 then 0 else backoff m) →
    Serve st (errs.map .temporary) =
      (.next, { st with
        tempDelay := if m + errs.length = 0 then 0 else backoff (m + errs.length),
        sleeps := st.sleeps ++ (List.range errs.length).map (fun k => backoff (m + k + 1)) }) := by
  induction errs with
  | nil =>
    intro st m _ hd
    simp only [List.map_nil, Serve, List.length_nil, Nat.add_zero, List.range_zero,
      List.append_nil]
    rw [← hd]
  | cons e rest ih =>
    intro st m hctx hd
    have hnext : nextDelay st.tempDelay = backoff (m + 1) := by
      rw [hd]
      by_cases hm : m = 0
      · subst hm; simpa using nextDelay_zero
      · rw [if_neg hm]; exact nextDelay_backoff m (by omega)
    have hiter : serveIter st (.temporary e) =
        (.next, { st with tempDelay := backoff (m + 1),
                          sleeps := st.sleeps ++ [backoff (m + 1)] }) := by
      simp only [serveIter, hctx, Bool.false_eq_true, if_false, hnext]
    have hrec := ih { st with tempDelay := backoff (m + 1),
                              sleeps := st.sleeps ++ [backoff (m + 1)] } (m + 1) hctx
      (by simp)
    simp only [List.map_cons, Serve, hiter, hrec, List.length_cons]
    have h1 : m + 1 + rest.length = m + (rest.length + 1) := by omega
    have h2 : (List.range (rest.length + 1)).map (fun k => backoff (m + k + 1)) =
        backoff (m + 1) :: (List.range rest.length).map (fun k => backoff (m + 1 + k + 1)) := by
      rw [List.range_succ_eq_map, List.map_cons, List.map_map]
      refine congrArg₂ _ rfl (List.map_congr_left ?_)
      intro k _
      show backoff (m + (k + 1) + 1) = backoff (m + 1 + k + 1)
      congr 1
      omega
    rw [h1, h2]
    simp

/-- C17: in `Serve` with the server context not cancelled, starting from `tempDelay = 0` (on
entry, or after a successful `Accept`), the sleep taken after the `n`-th consecutive temporary
error is `backoff n = min (5 ms * 2^(n-1)) (1 s)`; every sleep lies between 5 ms and 1 s; a
successful `Accept` keeps the loop running with `tempDelay = 0`. Three temporary errors, a
success and one more temporary error give the sleeps 5 ms, 10 ms, 20 ms and again 5 ms. -/
theorem Serve_backoff :
    (∀ (st : ServeState) (errs : List Err), st.ctxDone = false → st.tempDelay = 0 →
      Serve st (errs.map .temporary) =
        (.next, { st with
          tempDelay := if errs.length = 0 then 0 else backoff errs.length,
          sleeps := st.sleeps ++ (List.range errs.length).map (fun k => backoff (k + 1)) })) ∧
    (∀ n, 5 * Millisecond ≤ backoff n ∧ backoff n ≤ 1 * Second) ∧
    (∀ st, (serveIter st .conn).1 = .next ∧ (serveIter st .conn).2.tempDelay = 0 ∧
      (serveIter st .conn).2.ctxDone = st.ctxDone ∧ (serveIter st .conn).2.sleeps = st.sleeps) ∧
    (∀ e1 e2 e3 e4,
      Serve (serveStart false)
          [.temporary e1, .temporary e2, .temporary e3, .conn, .temporary e4] =
        (.next, { tempDelay := 5 * Millisecond, ctxDone := false, wg := 1,
                  sleeps := [5 * Millisecond, 10 * Millisecond, 20 * Millisecond,
                    5 * Millisecond],
                  sessions := 1 })) := by
  refine ⟨?_, backoff_bounds, fun st => ⟨rfl, rfl, rfl, rfl⟩, fun _ _ _ _ => ?_⟩
  · intro st errs hctx hd
    have := Serve_temporaries errs st 0 hctx (by simpa using hd)
    simpa using this
  · simp [Serve, serveIter, serveStart, nextDelay, wrapInt64, Millisecond, Second]

theorem Serve_backoff_witness :
    (serveStart false).ctxDone = false ∧ (serveStart false).tempDelay = 0 ∧
    Serve (serveStart false) [.temporary .EOF, .temporary .EOF, .temporary .EOF] =
      (.next, { tempDelay := 20 * Millisecond, ctxDone := false, wg := 0,
                sleeps := [5 * Millisecond, 10 * Millisecond, 20 * Millisecond],
                sessions := 0 }) ∧
    backoff 1 = 5 * Millisecond ∧ backoff 2 = 10 * Millisecond ∧ backoff 3 = 20 * Millisecond ∧
    backoff 8 = 640 * Millisecond ∧ backoff 9 = 1 * Second ∧ backoff 40 = 1 * Second :=
  ⟨rfl, rfl,
    (Serve_backoff.1 (serveStart false) [.EOF, .EOF, .EOF] rfl rfl).trans (by decide),
    by decide, by decide, by decide, by decide, by decide, by decide⟩

/-! ## The framed connection, the task epilogues and `Disconnect` -/

/-- C18 (code evaluated at the failing input): `SetTimeout` only stores the two timeouts and
never touches a deadline of the underlying stream, whereas `SetReadTimeout 0` and
`SetWriteTimeout 0` clear theirs. On a connection with both timeouts at 5 s, a `Read` and a
`Write` at time 100 install the deadline `100 + 5 s`; after `SetTimeout 0` both deadlines are
still installed, and a later `Read` and `Write` (at time 200) run under them. -/
theorem SetTimeout_keeps_deadline :
    (∀ (c : Conn) (d : Int), (c.SetTimeout d).readDeadline = c.readDeadline ∧
      (c.SetTimeout d).writeDeadline = c.writeDeadline) ∧
    (∀ c : Conn, (c.SetReadTimeout 0 none).2.readDeadline = none ∧
      (c.SetWriteTimeout 0 none).2.writeDeadline = none) ∧
    ((Conn.mk (5 * Second) (5 * Second) 0 0 none none).Read 100 none 10 none =
      ((10, none), Conn.mk (5 * Second) (5 * Second) 10 0 (some (100 + 5 * Second)) none)) ∧
    ((Conn.mk (5 * Second) (5 * Second) 10 0 (some (100 + 5 * Second)) none).Write 100 none 7
        none =
      ((7, none), Conn.mk (5 * Second) (5 * Second) 10 7 (some (100 + 5 * Second))
        (some (100 + 5 * Second)))) ∧
    ((Conn.mk (5 * Second) (5 * Second) 10 7 (some (100 + 5 * Second))
        (some (100 + 5 * Second))).SetTimeout 0 =
      Conn.mk 0 0 10 7 (some (100 + 5 * Second)) (some (100 + 5 * Second))) ∧
    (((Conn.mk 0 0 10 7 (some (100 + 5 * Second)) (some (100 + 5 * Second))).Read 200 none 1
        none).2.readDeadline = some (100 + 5 * Second)) ∧
    (((Conn.mk 0 0 10 7 (some (100 + 5 * Second)) (some (100 + 5 * Second))).Write 200 none 1
        none).2.writeDeadline = some (100 + 5 * Second)) := by
  refine ⟨fun c d => ⟨rfl, rfl⟩, fun c => ⟨?_, ?_⟩, by decide, by decide, by decide, by decide,
    by decide⟩
  · simp [Conn.SetReadTimeout]
  · simp [Conn.SetWriteTimeout]

/-- C19 (as stated) fails. On an open session the reader's epilogue, entered with the
terminal error `io.EOF`, does not invoke `OnError`; and on a session that is already closed
the handler's epilogue invokes `OnError` while the writer's does not. -/
theorem epilogues_differ :
    (openSession 0 0 [] [] 0).IsClosed = false ∧
    (∃ s1, (openSession 0 0 [] [] 0).readLoopEpilogue false (some .EOF) = .ok s1 ∧
      s1.onErrors = []) ∧
    (∃ s1, (openSession 0 0 [] [] 0).writeLoopEpilogue false (some .EOF) = .ok s1 ∧
      s1.onErrors = [.EOF]) ∧
    (openSession 0 0 [] [] 0).Close.IsClosed = true ∧
    (∃ s1, (openSession 0 0 [] [] 0).Close.handleLoopEpilogue false (some (.other 1)) = .ok s1 ∧
      s1.onErrors = [.other 1]) ∧
    (∃ s1, (openSession 0 0 [] [] 0).Close.writeLoopEpilogue false (some (.other 1)) = .ok s1 ∧
      s1.onErrors = []) :=
  ⟨rfl, ⟨_, rfl, rfl⟩, ⟨_, rfl, rfl⟩, rfl, ⟨_, rfl, rfl⟩, ⟨_, rfl, rfl⟩⟩

theorem Close_marks (s : IoSession) :
    s.Close.closed ≠ 0 ∧ s.Close.wg = s.wg ∧ s.Close.onErrors = s.onErrors := by
  unfold IoSession.Close
  split_ifs with h
  · exact ⟨h, rfl, rfl⟩
  · exact ⟨by simp, rfl, rfl⟩

/-- C19 (amended): for a running task (barrier not zero) whose terminal error `e` is
non-nil, possibly produced from a recovered panic, the writer's epilogue invokes
`OnError(session, e)` exactly when the session is not already closed, the reader's exactly
when the session is not already closed and `e` is not `io.EOF`, and the handler's invokes it
whenever the session is not already closed; each epilogue then lowers the barrier by one and
calls `Close`. -/
theorem epilogue_effect (s : IoSession) (panicked : Bool) (err : Option Err) (e : Err)
    (hwg : s.wg ≠ 0) (he : recoverErr panicked err = some e) :
    (∃ s1, s.writeLoopEpilogue panicked err = .ok s1 ∧
      s1.onErrors = (if s.IsClosed then s.onErrors else s.onErrors ++ [e]) ∧
      s1.wg = s.wg - 1 ∧ s1.closed ≠ 0) ∧
    (∃ s1, s.readLoopEpilogue panicked err = .ok s1 ∧
      s1.onErrors = (if s.IsClosed ∨ e = .EOF then s.onErrors else s.onErrors ++ [e]) ∧
      s1.wg = s.wg - 1 ∧ s1.closed ≠ 0) ∧
    (s.IsClosed = false →
      ∃ s1, s.handleLoopEpilogue panicked err = .ok s1 ∧
        s1.onErrors = s.onErrors ++ [e] ∧ s1.wg = s.wg - 1 ∧ s1.closed ≠ 0) := by
  refine ⟨?_, ?_, ?_⟩
  · simp only [IoSession.writeLoopEpilogue, he]
    by_cases hcl : s.IsClosed = true
    · simp only [hcl, Bool.not_true, Bool.false_eq_true, if_false, if_true, IoSession.wgDone,
        if_neg hwg]
      exact ⟨_, rfl, (Close_marks _).2.2, (Close_marks _).2.1, (Close_marks _).1⟩
    · have hcl' : s.IsClosed = false := by simpa using hcl
      simp only [hcl', Bool.not_false, if_true, Bool.false_eq_true, if_false, IoSession.wgDone]
      rw [if_neg hwg]
      exact ⟨_, rfl, (Close_marks _).2.2, (Close_marks _).2.1, (Close_marks _).1⟩
  · simp only [IoSession.readLoopEpilogue, he]
    by_cases hcl : s.IsClosed = true
    · simp only [hcl, Bool.not_true, Bool.false_and, Bool.false_eq_true, if_false, true_or,
        if_true, IoSession.wgDone, if_neg hwg]
      exact ⟨_, rfl, (Close_marks _).2.2, (Close_marks _).2.1, (Close_marks _).1⟩
    · have hcl' : s.IsClosed = false := by simpa using hcl
      by_cases hE : e = .EOF
      · simp only [hcl', hE, Bool.not_false, ne_eq, not_true_eq_false, decide_False,
          Bool.and_false, Bool.false_eq_true, if_false, or_true, if_true, IoSession.wgDone,
          if_neg hwg]
        exact ⟨_, rfl, (Close_marks _).2.2, (Close_marks _).2.1, (Close_marks _).1⟩
      · simp only [hcl', hE, Bool.not_false, ne_eq, not_false_eq_true, decide_True,
          Bool.and_self, if_true, Bool.false_eq_true, or_self, if_false, IoSession.wgDone]
        rw [if_neg hwg]
        exact ⟨_, rfl, (Close_marks _).2.2, (Close_marks _).2.1, (Close_marks _).1⟩
  · intro _
    simp only [IoSession.handleLoopEpilogue, he, IoSession.wgDone]
    rw [if_neg hwg]
    exact ⟨_, rfl, (Close_marks _).2.2, (Close_marks _).2.1, (Close_marks _).1⟩

theorem epilogue_effect_witness :
    (openSession 0 0 [] [] 0).wg ≠ 0 ∧ recoverErr true none = some .recovered ∧
    (∃ s1, (openSession 0 0 [] [] 0).writeLoopEpilogue true none = .ok s1 ∧
      s1.onErrors = [.recovered] ∧ s1.wg = 2 ∧ s1.closed ≠ 0) ∧
    (∃ s1, (openSession 0 0 [] [] 0).readLoopEpilogue true none = .ok s1 ∧
      s1.onErrors = [.recovered] ∧ s1.wg = 2 ∧ s1.closed ≠ 0) ∧
    (∃ s1, (openSession 0 0 [] [] 0).handleLoopEpilogue true none = .ok s1 ∧
      s1.onErrors = [.recovered] ∧ s1.wg = 2 ∧ s1.closed ≠ 0) :=
  ⟨by decide, rfl,
    (epilogue_effect (openSession 0 0 [] [] 0) true none .recovered (by decide) rfl).1,
    (epilogue_effect (openSession 0 0 [] [] 0) true none .recovered (by decide) rfl).2.1,
    (epilogue_effect (openSession 0 0 [] [] 0) true none .recovered (by decide) rfl).2.2 rfl⟩

/-- C20 (code evaluated at the failing input): on an engine that has no session, as built
by `NewClientBase` or left by a `Dial` that failed, `Disconnect` calls `Close` through the nil
session pointer and panics, although `Close` and `IsConnected` of the engine test the pointer
first. -/
theorem Disconnect_nil_session :
    (∀ parentDone dial conf,
      (NewClientBase parentDone dial conf).GetSession = none ∧
      (NewClientBase parentDone dial conf).Disconnect = .error .nilDereference) ∧
    (∀ e, (NewClientBase false true ⟨16, 16, false⟩).Dial (some e) none =
        .ok (some e, NewClientBase false true ⟨16, 16, false⟩)) ∧
    (NewClientBase false true ⟨16, 16, false⟩).IsConnected = false ∧
    (NewClientBase false true ⟨16, 16, false⟩).Close.closed = true :=
  ⟨fun _ _ _ => ⟨rfl, rfl⟩, fun _ => rfl, rfl, rfl⟩

/-! ### The table invariant is kept by the engine -/

theorem tableDelete_sublist (m : List (Nat × Nat)) (id : Nat) :
    (tableDelete m id).Sublist m := by
  induction m with
  | nil => exact List.Sublist.refl _
  | cons e m ih =>
    obtain ⟨a, b⟩ := e
    by_cases h : a = id
    · rw [tableDelete, if_pos h]; exact List.Sublist.cons _ ih
    · rw [tableDelete, if_neg h]; exact List.Sublist.cons₂ _ ih

theorem tableDelete_not_mem (m : List (Nat × Nat)) (id : Nat) :
    ∀ e ∈ tableDelete m id, e.1 ≠ id := by
  induction m with
  | nil => intro e he; cases he
  | cons x m ih =>
    obtain ⟨a, b⟩ := x
    intro e he
    by_cases h : a = id
    · rw [tableDelete, if_pos h] at he; exact ih e he
    · rw [tableDelete, if_neg h] at he
      rcases List.mem_cons.mp he with rfl | he
      · exact h
      · exact ih e he

theorem NewClientBase_tableOk (parentDone dial : Bool) (conf : ClientConfig) :
    (NewClientBase parentDone dial conf).tableOk :=
  ⟨List.nodup_nil, fun e he => by cases he⟩

theorem tableOk_of_sub (c c1 : ClientBase) (hok : c.tableOk)
    (hsub : c1.pendingMap.Sublist c.pendingMap)
    (hcalls : ∀ e ∈ c1.pendingMap, c1.calls.get? e.2 = c.calls.get? e.2) : c1.tableOk := by
  refine ⟨hok.1.sublist (hsub.map _), ?_⟩
  intro e he
  obtain ⟨r, hr, h1, h2⟩ := hok.2 e (hsub.subset he)
  exact ⟨r, (hcalls e he).trans hr, h1, h2⟩

/-- Registration of a call keeps the table well-formed. -/
theorem register_tableOk (c : ClientBase) (req : Message) (id : Nat) (hok : c.tableOk) :
    (c.register req id).1.tableOk := by
  have hlt : ∀ e ∈ c.pendingMap, e.2 < c.calls.length := by
    intro e he
    obtain ⟨r, hr, -⟩ := hok.2 e he
    by_contra hn
    rw [List.get?_eq_none.mpr (not_lt.mp hn)] at hr
    exact absurd hr (by simp)
  have hsub := tableDelete_sublist c.pendingMap id
  refine ⟨?_, ?_⟩
  · show (c.calls.length :: (tableDelete c.pendingMap id).map Prod.snd).Nodup
    refine List.nodup_cons.mpr ⟨?_, hok.1.sublist (hsub.map _)⟩
    intro hmem
    obtain ⟨e, he, heq⟩ := List.mem_map.mp hmem
    have := hlt e (hsub.subset he)
    omega
  · intro e he
    have he' : e ∈ (id, c.calls.length) :: tableDelete c.pendingMap id := he
    rcases List.mem_cons.mp he' with rfl | he1
    · refine ⟨pendingRequest.mk req ⟨[], 1, false⟩ ⟨[], 1, false⟩, ?_, rfl, rfl⟩
      show (c.calls ++ [pendingRequest.mk req ⟨[], 1, false⟩ ⟨[], 1, false⟩]).get?
        c.calls.length = some _
      simp [List.get?_eq_getElem?]
    · obtain ⟨r, hr, h1, h2⟩ := hok.2 e (hsub.subset he1)
      refine ⟨r, ?_, h1, h2⟩
      show (c.calls ++ [_]).get? e.2 = some r
      rw [List.get?_eq_getElem?] at hr ⊢
      rw [List.getElem?_append_left (hlt e (hsub.subset he1))]
      exact hr

/-- `OnMessage` keeps the table well-formed, and never parks on a well-formed table. -/
theorem OnMessage_tableOk (c : ClientBase) (msg : Message) (user : Option Err)
    (hok : c.tableOk) : ∃ x c1, c.OnMessage msg user = .ret x c1 ∧ c1.tableOk := by
  have hfwd : ∀ c0 : ClientBase, c0.tableOk →
      ∃ x c1, c0.forward msg user = .ret x c1 ∧ c1.tableOk := by
    intro c0 h0
    unfold ClientBase.forward
    split_ifs
    · exact ⟨_, _, rfl, h0⟩
    · exact ⟨_, _, rfl, h0⟩
  cases msg with
  | nil => exact hfwd c hok
  | plain p => exact hfwd c hok
  | withId id payload =>
    rcases hget : tableGet c.pendingMap id with _ | tk
    · have hsame : ({ c with pendingMap := tableDelete c.pendingMap id } : ClientBase) = c := by
        rw [tableDelete_absent _ _ hget]
      simp only [ClientBase.OnMessage, hget, hsame]
      exact hfwd c hok
    · have hmem := tableGet_mem _ _ _ hget
      obtain ⟨r, hr, -, hrep⟩ := hok.2 (id, tk) hmem
      refine ⟨none, { c with pendingMap := tableDelete c.pendingMap id,
                             calls := c.calls.set tk (r.reply (.withId id payload)) }, ?_, ?_⟩
      · simp only [ClientBase.OnMessage, hget]
        simp only [hr, hrep]
        simp
      · refine tableOk_of_sub c _ hok (tableDelete_sublist _ _) ?_
        intro e he
        have he1 : e ∈ tableDelete c.pendingMap id := he
        have hne : e.1 ≠ id := tableDelete_not_mem _ _ e he1
        have hem : e ∈ c.pendingMap := (tableDelete_sublist _ _).subset he1
        have htk : tk ≠ e.2 := by
          intro heq
          have := List.inj_on_of_nodup_map hok.1 hmem hem heq
          exact hne (by rw [← this])
        exact get?_set_other _ _ _ _ htk

/-- `OnDisconnected` on an open engine leaves a well-formed (empty) table. -/
theorem OnDisconnected_tableOk (c : ClientBase) (hok : c.tableOk) (hc : c.closed = false) :
    ∃ c1, c.OnDisconnected = .ret () c1 ∧ c1.tableOk := by
  obtain ⟨calls1, hrun, -⟩ := OnDisconnected_open c hok hc
  exact ⟨_, hrun, List.nodup_nil, fun e he => by cases he⟩

/-- The timeout of a call keeps the table well-formed. -/
theorem timer_tableOk (c : ClientBase) (id : Nat) (hok : c.tableOk) :
    ({ c with pendingMap := tableDelete c.pendingMap id } : ClientBase).tableOk :=
  tableOk_of_sub c _ hok (tableDelete_sublist _ _) (fun _ _ => rfl)

end Knet
